import Mathlib

/-!
Shallow embedding of the location-addressing, backlink-resolution, reading-store
and reading-tracker core of the super-epub plugin (src/shared/utils.ts,
src/shared/models.ts), together with theorems settling the specification claims.

Strings are modelled as lists of Unicode code points (`Str := List Nat`); bytes
are modelled as natural numbers below 256.  Platform functions used by the
source (`TextEncoder`, `btoa`, `atob`, `TextDecoder`, `decodeURIComponent`,
`URL`/`URLSearchParams`, Obsidian's `normalizePath`) are modelled from their
standard documented behaviour, as noted on each definition.
-/

/-- Strings are lists of Unicode code points. -/
abbrev Str := List Nat

/-- Code points of a Lean string literal (every Lean `Char` is a Unicode scalar value). -/
def str (s : String) : Str := s.toList.map Char.toNat

/-- A Unicode scalar value: a code point outside the surrogate range and below 0x110000. -/
def isValidScalar (c : Nat) : Bool := c < 0xD800 || (0xE000 ≤ c && c < 0x110000)

/-! ## UTF-8 (models the platform TextEncoder / TextDecoder) -/

/-- UTF-8 encoding of one Unicode scalar value (models `TextEncoder` per code point;
on a valid Unicode string `TextEncoder` is exactly the per-scalar encoding). -/
def utf8EncodeChar (c : Nat) : List Nat :=
  if c < 0x80 then [c]
  else if c < 0x800 then [0xC0 + c / 64, 0x80 + c % 64]
  else if c < 0x10000 then [0xE0 + c / 4096, 0x80 + c / 64 % 64, 0x80 + c % 64]
  else [0xF0 + c / 262144, 0x80 + c / 4096 % 64, 0x80 + c / 64 % 64, 0x80 + c % 64]

/-- UTF-8 encoding of a string (models `new TextEncoder().encode(input)` on a
valid Unicode string). -/
def utf8Encode (s : Str) : List Nat := (s.map utf8EncodeChar).flatten

/-- One step of WHATWG UTF-8 decoding with replacement: given a leading byte and
the remaining bytes, produce the decoded scalar (U+FFFD on malformed input) and
the bytes still to decode (a malformed sequence restarts at the offending byte). -/
def utf8Step1 (b : Nat) (rest : List Nat) : Nat × List Nat :=
  if b < 0x80 then (b, rest)
  else if b < 0xC2 then (0xFFFD, rest)
  else if b < 0xE0 then
    match rest with
    | [] => (0xFFFD, [])
    | b2 :: r2 =>
      if 0x80 ≤ b2 ∧ b2 < 0xC0 then ((b - 0xC0) * 64 + (b2 - 0x80), r2)
      else (0xFFFD, b2 :: r2)
  else if b < 0xF0 then
    match rest with
    | [] => (0xFFFD, [])
    | b2 :: r2 =>
      if (if b = 0xE0 then 0xA0 else 0x80) ≤ b2 ∧ b2 ≤ (if b = 0xED then 0x9F else 0xBF) then
        match r2 with
        | [] => (0xFFFD, [])
        | b3 :: r3 =>
          if 0x80 ≤ b3 ∧ b3 < 0xC0 then
            ((b - 0xE0) * 4096 + (b2 - 0x80) * 64 + (b3 - 0x80), r3)
          else (0xFFFD, b3 :: r3)
      else (0xFFFD, b2 :: r2)
  else if b < 0xF5 then
    match rest with
    | [] => (0xFFFD, [])
    | b2 :: r2 =>
      if (if b = 0xF0 then 0x90 else 0x80) ≤ b2 ∧ b2 ≤ (if b = 0xF4 then 0x8F else 0xBF) then
        match r2 with
        | [] => (0xFFFD, [])
        | b3 :: r3 =>
          if 0x80 ≤ b3 ∧ b3 < 0xC0 then
            match r3 with
            | [] => (0xFFFD, [])
            | b4 :: r4 =>
              if 0x80 ≤ b4 ∧ b4 < 0xC0 then
                ((b - 0xF0) * 262144 + (b2 - 0x80) * 4096 + (b3 - 0x80) * 64 + (b4 - 0x80), r4)
              else (0xFFFD, b4 :: r4)
          else (0xFFFD, b3 :: r3)
      else (0xFFFD, b2 :: r2)
  else (0xFFFD, rest)

theorem utf8Step1_snd_le (b : Nat) (rest : List Nat) :
    (utf8Step1 b rest).2.length ≤ rest.length := by
  unfold utf8Step1
  repeat' split
  all_goals simp_all
  all_goals omega

/-- Fuelled worker for UTF-8 decoding; the fuel only serves structural
termination and is irrelevant whenever it is at least the list length. -/
def utf8DecodeGo : Nat → List Nat → List Nat
  | _, [] => []
  | 0, _ :: _ => []
  | fuel + 1, b :: rest => (utf8Step1 b rest).1 :: utf8DecodeGo fuel (utf8Step1 b rest).2

/-- WHATWG UTF-8 decode with replacement (models `new TextDecoder().decode(bytes)`:
the default `TextDecoder` is non-fatal and substitutes U+FFFD for malformed
sequences). -/
def utf8DecodeReplace (l : List Nat) : List Nat := utf8DecodeGo l.length l

theorem utf8DecodeGo_congr : ∀ (f1 f2 : Nat) (l : List Nat),
    l.length ≤ f1 → l.length ≤ f2 → utf8DecodeGo f1 l = utf8DecodeGo f2 l := by
  intro f1
  induction f1 with
  | zero =>
    intro f2 l h1 _
    cases l with
    | nil => cases f2 <;> rfl
    | cons b rest => simp at h1
  | succ f ih =>
    intro f2 l h1 h2
    cases l with
    | nil => cases f2 <;> rfl
    | cons b rest =>
      cases f2 with
      | zero => simp at h2
      | succ f2p =>
        simp only [utf8DecodeGo, List.cons.injEq, true_and]
        exact ih f2p _ (le_trans (utf8Step1_snd_le b rest) (by simpa using h1))
          (le_trans (utf8Step1_snd_le b rest) (by simpa using h2))

theorem utf8DecodeReplace_cons (b : Nat) (rest : List Nat) :
    utf8DecodeReplace (b :: rest)
      = (utf8Step1 b rest).1 :: utf8DecodeReplace (utf8Step1 b rest).2 := by
  simp only [utf8DecodeReplace, List.length_cons, utf8DecodeGo, List.cons.injEq, true_and]
  exact utf8DecodeGo_congr _ _ _ (utf8Step1_snd_le b rest) le_rfl

/-- Strict UTF-8 validity of a byte list (true iff the bytes are a well-formed
UTF-8 encoding of a sequence of Unicode scalar values). -/
def isUtf8ValidB : List Nat → Bool
  | [] => true
  | b :: rest =>
    if b < 0x80 then isUtf8ValidB rest
    else if b < 0xC2 then false
    else if b < 0xE0 then
      match rest with
      | [] => false
      | b2 :: r2 => (0x80 ≤ b2 && b2 < 0xC0) && isUtf8ValidB r2
    else if b < 0xF0 then
      match rest with
      | [] => false
      | b2 :: r2 =>
        if (if b = 0xE0 then 0xA0 else 0x80) ≤ b2 ∧ b2 ≤ (if b = 0xED then 0x9F else 0xBF) then
          match r2 with
          | [] => false
          | b3 :: r3 => (0x80 ≤ b3 && b3 < 0xC0) && isUtf8ValidB r3
        else false
    else if b < 0xF5 then
      match rest with
      | [] => false
      | b2 :: r2 =>
        if (if b = 0xF0 then 0x90 else 0x80) ≤ b2 ∧ b2 ≤ (if b = 0xF4 then 0x8F else 0xBF) then
          match r2 with
          | [] => false
          | b3 :: r3 =>
            if 0x80 ≤ b3 ∧ b3 < 0xC0 then
              match r3 with
              | [] => false
              | b4 :: r4 => (0x80 ≤ b4 && b4 < 0xC0) && isUtf8ValidB r4
            else false
        else false
    else false

/-! ## Base64 (models the platform btoa / atob) -/

/-- Standard base64 alphabet character for a sextet value below 64. -/
def b64Chr (v : Nat) : Nat :=
  if v < 26 then 65 + v
  else if v < 52 then 71 + v
  else if v < 62 then v - 4
  else if v = 62 then 43
  else 47

/-- Value of a standard base64 alphabet character; `none` for any other character
(including the padding character 61, i.e. an equals sign). -/
def b64Val (c : Nat) : Option Nat :=
  if 65 ≤ c ∧ c ≤ 90 then some (c - 65)
  else if 97 ≤ c ∧ c ≤ 122 then some (c - 71)
  else if 48 ≤ c ∧ c ≤ 57 then some (c + 4)
  else if c = 43 then some 62
  else if c = 47 then some 63
  else none

/-- Pack bytes into base64 sextet values (final partial groups as in `btoa`). -/
def toSextets : List Nat → List Nat
  | b1 :: b2 :: b3 :: rest =>
    b1 / 4 :: ((b1 % 4) * 16 + b2 / 16) :: ((b2 % 16) * 4 + b3 / 64) :: (b3 % 64)
      :: toSextets rest
  | [b1, b2] => [b1 / 4, (b1 % 4) * 16 + b2 / 16, (b2 % 16) * 4]
  | [b1] => [b1 / 4, (b1 % 4) * 16]
  | [] => []

/-- Unpack base64 sextet values into bytes, discarding the leftover 2 or 4 bits
of a final partial group, as forgiving-base64 decoding does. -/
def sextets2bytes : List Nat → List Nat
  | v1 :: v2 :: v3 :: v4 :: rest =>
    (v1 * 4 + v2 / 16) :: ((v2 % 16) * 16 + v3 / 4) :: ((v3 % 4) * 64 + v4)
      :: sextets2bytes rest
  | [v1, v2] => [v1 * 4 + v2 / 16]
  | [v1, v2, v3] => [v1 * 4 + v2 / 16, (v2 % 16) * 16 + v3 / 4]
  | _ => []

/-- Base64-encode a byte list with padding (models the platform `btoa`; the
source always feeds it bytes below 256, where `btoa` cannot throw). -/
def btoa : List Nat → List Nat
  | b1 :: b2 :: b3 :: rest =>
    b64Chr (b1 / 4) :: b64Chr ((b1 % 4) * 16 + b2 / 16) :: b64Chr ((b2 % 16) * 4 + b3 / 64)
      :: b64Chr (b3 % 64) :: btoa rest
  | [b1, b2] => [b64Chr (b1 / 4), b64Chr ((b1 % 4) * 16 + b2 / 16), b64Chr ((b2 % 16) * 4), 61]
  | [b1] => [b64Chr (b1 / 4), b64Chr ((b1 % 4) * 16), 61, 61]
  | [] => []

/-- ASCII whitespace as removed by forgiving-base64 decoding. -/
def isWsChar (c : Nat) : Bool := c = 9 || c = 10 || c = 12 || c = 13 || c = 32

/-- Remove up to two trailing padding characters (code 61), as forgiving-base64
decoding does when the length is a multiple of four. -/
def stripEqs (l : List Nat) : List Nat :=
  if l.getLast? = some 61 then
    if l.dropLast.getLast? = some 61 then l.dropLast.dropLast else l.dropLast
  else l

/-- Look up base64 values of every character, failing on the first invalid one. -/
def b64Vals : List Nat → Option (List Nat)
  | [] => some []
  | c :: r =>
    match b64Val c, b64Vals r with
    | some v, some vs => some (v :: vs)
    | _, _ => none

/-- Forgiving-base64 decode (models the platform `atob` per the WHATWG infra
standard: strip ASCII whitespace, strip up to two trailing `=` when the length
is a multiple of four, fail on length ≡ 1 (mod 4) or on any character outside
the standard alphabet, then unpack sextets discarding leftover bits). -/
def atob (l : List Nat) : Option (List Nat) :=
  let data := l.filter (fun c => !isWsChar c)
  let data := if data.length % 4 = 0 then stripEqs data else data
  if data.length % 4 = 1 then none
  else (b64Vals data).map sextets2bytes

/-! ## base64UrlEncode / base64UrlDecode (src/shared/utils.ts) -/

/-- Remap to the url-safe alphabet: 43 to 45 and 47 to 95 (plus to minus, slash
to underscore), as in the `replace` calls of `base64UrlEncode`. -/
def urlMapChar (c : Nat) : Nat := if c = 43 then 45 else if c = 47 then 95 else c

/-- Reverse remap: 45 to 43 and 95 to 47, as in `base64UrlDecode`. -/
def urlUnmapChar (c : Nat) : Nat := if c = 45 then 43 else if c = 95 then 47 else c

/-- Strip all trailing padding characters, as the regex replace of `=+$` does. -/
def stripTrailingEq (l : List Nat) : List Nat := (l.reverse.dropWhile (· = 61)).reverse

/-- Embedding of `base64UrlEncode` (src/shared/utils.ts lines 8-14): UTF-8
encode, `btoa`, remap `+`/`/` to `-`/`_`, strip trailing `=`. -/
def base64UrlEncode (input : Str) : Str :=
  stripTrailingEq ((btoa (utf8Encode input)).map urlMapChar)

/-- The byte-level part of `base64UrlDecode`: reverse the alphabet remap, pad
with `=` to a multiple of four characters, then `atob`. -/
def base64UrlDecodeBytes (encoded : Str) : Option (List Nat) :=
  let base64 := encoded.map urlUnmapChar
  atob (base64 ++ List.replicate ((4 - base64.length % 4) % 4) 61)

/-- Embedding of `base64UrlDecode` (src/shared/utils.ts lines 16-23): the byte
stage above followed by `new TextDecoder().decode`, which never fails and
substitutes U+FFFD for malformed UTF-8.  `none` models the `atob` exception. -/
def base64UrlDecode (encoded : Str) : Option Str :=
  (base64UrlDecodeBytes encoded).map utf8DecodeReplace

/-- Characters of the url-safe base64 alphabet `[A-Za-z0-9_-]`. -/
def isB64uChar (c : Nat) : Bool :=
  (65 ≤ c && c ≤ 90) || (97 ≤ c && c ≤ 122) || (48 ≤ c && c ≤ 57) || c = 45 || c = 95


/-! ## UTF-8 round-trip lemmas -/

theorem utf8Step1_enc1 (c : Nat) (h : c < 0x80) (tail : List Nat) :
    utf8Step1 c tail = (c, tail) := by
  simp [utf8Step1, h]

theorem utf8Step1_enc2 (c : Nat) (h1 : 0x80 ≤ c) (h2 : c < 0x800) (tail : List Nat) :
    utf8Step1 (0xC0 + c / 64) ((0x80 + c % 64) :: tail) = (c, tail) := by
  have e1 : ¬ (0xC0 + c / 64 < 0x80) := by omega
  have e2 : ¬ (0xC0 + c / 64 < 0xC2) := by omega
  have e3 : 0xC0 + c / 64 < 0xE0 := by omega
  have e4 : 0x80 ≤ 0x80 + c % 64 ∧ 0x80 + c % 64 < 0xC0 := by omega
  simp only [utf8Step1, if_neg e1, if_neg e2, if_pos e3, if_pos e4, Prod.mk.injEq]
  exact ⟨by omega, trivial⟩

theorem utf8Step1_enc3 (c : Nat) (h1 : 0x800 ≤ c) (h2 : c < 0x10000)
    (hs : c < 0xD800 ∨ 0xE000 ≤ c) (tail : List Nat) :
    utf8Step1 (0xE0 + c / 4096) ((0x80 + c / 64 % 64) :: (0x80 + c % 64) :: tail)
      = (c, tail) := by
  have e1 : ¬ (0xE0 + c / 4096 < 0x80) := by omega
  have e2 : ¬ (0xE0 + c / 4096 < 0xC2) := by omega
  have e3 : ¬ (0xE0 + c / 4096 < 0xE0) := by omega
  have e4 : 0xE0 + c / 4096 < 0xF0 := by omega
  have e5 : 0x80 ≤ 0x80 + c % 64 ∧ 0x80 + c % 64 < 0xC0 := by omega
  have e6 : (if (0xE0 + c / 4096 : Nat) = 0xE0 then (0xA0 : Nat) else 0x80) ≤ 0x80 + c / 64 % 64
      ∧ 0x80 + c / 64 % 64 ≤ (if (0xE0 + c / 4096 : Nat) = 0xED then (0x9F : Nat) else 0xBF) := by
    constructor
    · split <;> omega
    · split <;> omega
  simp only [utf8Step1, if_neg e1, if_neg e2, if_neg e3, if_pos e4, if_pos e6, if_pos e5,
    Prod.mk.injEq]
  exact ⟨by omega, trivial⟩

theorem utf8Step1_enc4 (c : Nat) (h1 : 0x10000 ≤ c) (h2 : c < 0x110000) (tail : List Nat) :
    utf8Step1 (0xF0 + c / 262144)
      ((0x80 + c / 4096 % 64) :: (0x80 + c / 64 % 64) :: (0x80 + c % 64) :: tail)
      = (c, tail) := by
  have e1 : ¬ (0xF0 + c / 262144 < 0x80) := by omega
  have e2 : ¬ (0xF0 + c / 262144 < 0xC2) := by omega
  have e3 : ¬ (0xF0 + c / 262144 < 0xE0) := by omega
  have e4 : ¬ (0xF0 + c / 262144 < 0xF0) := by omega
  have e5 : 0xF0 + c / 262144 < 0xF5 := by omega
  have e6 : (if (0xF0 + c / 262144 : Nat) = 0xF0 then (0x90 : Nat) else 0x80)
        ≤ 0x80 + c / 4096 % 64
      ∧ 0x80 + c / 4096 % 64
        ≤ (if (0xF0 + c / 262144 : Nat) = 0xF4 then (0x8F : Nat) else 0xBF) := by
    constructor
    · split <;> omega
    · split <;> omega
  have e7 : 0x80 ≤ 0x80 + c / 64 % 64 ∧ 0x80 + c / 64 % 64 < 0xC0 := by omega
  have e8 : 0x80 ≤ 0x80 + c % 64 ∧ 0x80 + c % 64 < 0xC0 := by omega
  simp only [utf8Step1, if_neg e1, if_neg e2, if_neg e3, if_neg e4, if_pos e5, if_pos e6,
    if_pos e7, if_pos e8, Prod.mk.injEq]
  exact ⟨by omega, trivial⟩

theorem utf8DecodeReplace_encodeChar (c : Nat) (h : isValidScalar c = true) (tail : List Nat) :
    utf8DecodeReplace (utf8EncodeChar c ++ tail) = c :: utf8DecodeReplace tail := by
  have hv : c < 0xD800 ∨ (0xE000 ≤ c ∧ c < 0x110000) := by
    simp only [isValidScalar, Bool.or_eq_true, Bool.and_eq_true, decide_eq_true_eq] at h
    omega
  by_cases h1 : c < 0x80
  · rw [show utf8EncodeChar c = [c] by simp [utf8EncodeChar, h1]]
    rw [List.cons_append, List.nil_append, utf8DecodeReplace_cons, utf8Step1_enc1 c h1]
  · by_cases h2 : c < 0x800
    · rw [show utf8EncodeChar c = [0xC0 + c / 64, 0x80 + c % 64] by
        simp [utf8EncodeChar, h1, h2]]
      rw [List.cons_append, List.cons_append, List.nil_append, utf8DecodeReplace_cons,
        utf8Step1_enc2 c (by omega) h2]
    · by_cases h3 : c < 0x10000
      · rw [show utf8EncodeChar c = [0xE0 + c / 4096, 0x80 + c / 64 % 64, 0x80 + c % 64] by
          simp [utf8EncodeChar, h1, h2, h3]]
        rw [List.cons_append, List.cons_append, List.cons_append, List.nil_append,
          utf8DecodeReplace_cons, utf8Step1_enc3 c (by omega) h3 (by omega)]
      · rw [show utf8EncodeChar c
            = [0xF0 + c / 262144, 0x80 + c / 4096 % 64, 0x80 + c / 64 % 64, 0x80 + c % 64] by
          simp [utf8EncodeChar, h1, h2, h3]]
        rw [List.cons_append, List.cons_append, List.cons_append, List.cons_append,
          List.nil_append, utf8DecodeReplace_cons, utf8Step1_enc4 c (by omega) (by omega)]

theorem utf8_roundtrip (s : Str) (h : ∀ c ∈ s, isValidScalar c = true) :
    utf8DecodeReplace (utf8Encode s) = s := by
  induction s with
  | nil => rfl
  | cons c rest ih =>
    have hc : isValidScalar c = true := h c (by simp)
    have hrest : ∀ x ∈ rest, isValidScalar x = true := fun x hx => h x (by simp [hx])
    calc utf8DecodeReplace (utf8Encode (c :: rest))
        = utf8DecodeReplace (utf8EncodeChar c ++ utf8Encode rest) := by
          simp [utf8Encode]
      _ = c :: utf8DecodeReplace (utf8Encode rest) :=
          utf8DecodeReplace_encodeChar c hc _
      _ = c :: rest := by rw [ih hrest]

theorem utf8EncodeChar_lt (c : Nat) (h : c < 0x110000) :
    ∀ b ∈ utf8EncodeChar c, b < 256 := by
  intro b hb
  unfold utf8EncodeChar at hb
  by_cases h1 : c < 0x80
  · simp only [if_pos h1, List.mem_singleton] at hb
    omega
  · by_cases h2 : c < 0x800
    · simp only [if_neg h1, if_pos h2, List.mem_cons, List.not_mem_nil, or_false] at hb
      rcases hb with rfl | rfl <;> omega
    · by_cases h3 : c < 0x10000
      · simp only [if_neg h1, if_neg h2, if_pos h3, List.mem_cons, List.not_mem_nil,
          or_false] at hb
        rcases hb with rfl | rfl | rfl <;> omega
      · simp only [if_neg h1, if_neg h2, if_neg h3, List.mem_cons, List.not_mem_nil,
          or_false] at hb
        rcases hb with rfl | rfl | rfl | rfl <;> omega

theorem utf8Encode_lt (s : Str) (h : ∀ c ∈ s, isValidScalar c = true) :
    ∀ b ∈ utf8Encode s, b < 256 := by
  intro b hb
  simp only [utf8Encode, List.mem_flatten, List.mem_map] at hb
  obtain ⟨l, ⟨c, hc, rfl⟩, hbl⟩ := hb
  have hv : c < 0x110000 := by
    have := h c hc
    simp only [isValidScalar, Bool.or_eq_true, Bool.and_eq_true, decide_eq_true_eq] at this
    omega
  exact utf8EncodeChar_lt c hv b hbl

/-! ## Base64 round-trip lemmas -/

theorem b64Val_b64Chr : ∀ v : Nat, v < 64 → b64Val (b64Chr v) = some v := by decide

theorem b64Chr_ne_61 : ∀ v : Nat, v < 64 → b64Chr v ≠ 61 := by decide

theorem b64Chr_not_ws : ∀ v : Nat, v < 64 → isWsChar (b64Chr v) = false := by decide

theorem urlMap_b64Chr_ne_61 : ∀ v : Nat, v < 64 → urlMapChar (b64Chr v) ≠ 61 := by decide

theorem urlUnmap_urlMap_b64Chr : ∀ v : Nat, v < 64 →
    urlUnmapChar (urlMapChar (b64Chr v)) = b64Chr v := by decide

theorem urlMapChar_61 : urlMapChar 61 = 61 := by decide

theorem toSextets_lt (b : List Nat) (h : ∀ x ∈ b, x < 256) : ∀ v ∈ toSextets b, v < 64 := by
  induction b using toSextets.induct with
  | case1 b1 b2 b3 rest ih =>
    have h1 : b1 < 256 := h b1 (by simp)
    have h2 : b2 < 256 := h b2 (by simp)
    have h3 : b3 < 256 := h b3 (by simp)
    intro v hv
    rw [show toSextets (b1 :: b2 :: b3 :: rest)
        = b1 / 4 :: ((b1 % 4) * 16 + b2 / 16) :: ((b2 % 16) * 4 + b3 / 64) :: (b3 % 64)
          :: toSextets rest from rfl, List.mem_cons, List.mem_cons, List.mem_cons,
      List.mem_cons] at hv
    rcases hv with rfl | rfl | rfl | rfl | hv
    · omega
    · omega
    · omega
    · omega
    · exact ih (fun x hx => h x (by simp [hx])) v hv
  | case2 b1 b2 =>
    have h1 : b1 < 256 := h b1 (by simp)
    have h2 : b2 < 256 := h b2 (by simp)
    intro v hv
    rw [show toSextets [b1, b2] = [b1 / 4, (b1 % 4) * 16 + b2 / 16, (b2 % 16) * 4] from rfl,
      List.mem_cons, List.mem_cons, List.mem_singleton] at hv
    rcases hv with rfl | rfl | rfl <;> omega
  | case3 b1 =>
    have h1 : b1 < 256 := h b1 (by simp)
    intro v hv
    rw [show toSextets [b1] = [b1 / 4, (b1 % 4) * 16] from rfl, List.mem_cons,
      List.mem_singleton] at hv
    rcases hv with rfl | rfl <;> omega
  | case4 => simp [toSextets]

theorem sextets2bytes_toSextets (b : List Nat) (h : ∀ x ∈ b, x < 256) :
    sextets2bytes (toSextets b) = b := by
  induction b using toSextets.induct with
  | case1 b1 b2 b3 rest ih =>
    have h1 : b1 < 256 := h b1 (by simp)
    have h2 : b2 < 256 := h b2 (by simp)
    have h3 : b3 < 256 := h b3 (by simp)
    rw [show toSextets (b1 :: b2 :: b3 :: rest)
        = b1 / 4 :: ((b1 % 4) * 16 + b2 / 16) :: ((b2 % 16) * 4 + b3 / 64) :: (b3 % 64)
          :: toSextets rest from rfl]
    rw [show sextets2bytes (b1 / 4 :: ((b1 % 4) * 16 + b2 / 16) :: ((b2 % 16) * 4 + b3 / 64)
        :: (b3 % 64) :: toSextets rest)
        = (b1 / 4 * 4 + ((b1 % 4) * 16 + b2 / 16) / 16)
          :: ((((b1 % 4) * 16 + b2 / 16) % 16) * 16 + ((b2 % 16) * 4 + b3 / 64) / 4)
          :: ((((b2 % 16) * 4 + b3 / 64) % 4) * 64 + b3 % 64)
          :: sextets2bytes (toSextets rest) from rfl]
    rw [ih (fun x hx => h x (by simp [hx]))]
    congr 1
    · omega
    · congr 1
      · omega
      · congr 1
        omega
  | case2 b1 b2 =>
    have h1 : b1 < 256 := h b1 (by simp)
    have h2 : b2 < 256 := h b2 (by simp)
    show [b1 / 4 * 4 + ((b1 % 4) * 16 + b2 / 16) / 16,
      (((b1 % 4) * 16 + b2 / 16) % 16) * 16 + ((b2 % 16) * 4) / 4] = [b1, b2]
    congr 1
    · omega
    · congr 1
      omega
  | case3 b1 =>
    have h1 : b1 < 256 := h b1 (by simp)
    show [b1 / 4 * 4 + ((b1 % 4) * 16) / 16] = [b1]
    congr 1
    omega
  | case4 => rfl

theorem btoa_eq (b : List Nat) :
    btoa b = (toSextets b).map b64Chr ++ List.replicate ((3 - b.length % 3) % 3) 61 := by
  induction b using toSextets.induct with
  | case1 b1 b2 b3 rest ih =>
    rw [show btoa (b1 :: b2 :: b3 :: rest)
        = b64Chr (b1 / 4) :: b64Chr ((b1 % 4) * 16 + b2 / 16) :: b64Chr ((b2 % 16) * 4 + b3 / 64)
          :: b64Chr (b3 % 64) :: btoa rest from rfl, ih]
    rw [show toSextets (b1 :: b2 :: b3 :: rest)
        = b1 / 4 :: ((b1 % 4) * 16 + b2 / 16) :: ((b2 % 16) * 4 + b3 / 64) :: (b3 % 64)
          :: toSextets rest from rfl]
    simp only [List.map_cons, List.cons_append, List.length_cons, List.cons.injEq, true_and]
    congr 2
    omega
  | case2 b1 b2 => rfl
  | case3 b1 => rfl
  | case4 => rfl

theorem toSextets_length (b : List Nat) :
    (toSextets b).length = b.length + (b.length + 2) / 3 := by
  induction b using toSextets.induct with
  | case1 b1 b2 b3 rest ih =>
    rw [show toSextets (b1 :: b2 :: b3 :: rest)
        = b1 / 4 :: ((b1 % 4) * 16 + b2 / 16) :: ((b2 % 16) * 4 + b3 / 64) :: (b3 % 64)
          :: toSextets rest from rfl]
    simp only [List.length_cons, ih]
    omega
  | case2 b1 b2 => simp [toSextets]
  | case3 b1 => simp [toSextets]
  | case4 => rfl

theorem stripEqs_append_rep (xs : List Nat) (h : ∀ c ∈ xs, c ≠ 61) (k : Nat) (hk : k ≤ 2) :
    stripEqs (xs ++ List.replicate k 61) = xs := by
  have hlast : xs.getLast? ≠ some 61 := by
    intro hc
    have hsp := List.dropLast_append_getLast? 61 hc
    exact h 61 (by rw [← hsp]; simp) rfl
  interval_cases k
  · rw [show List.replicate 0 (61 : Nat) = [] from rfl, List.append_nil]
    unfold stripEqs
    rw [if_neg hlast]
  · rw [show List.replicate 1 (61 : Nat) = [61] from rfl]
    unfold stripEqs
    rw [List.getLast?_concat, List.dropLast_concat, if_pos rfl, if_neg hlast]
  · rw [show List.replicate 2 (61 : Nat) = [61, 61] from rfl,
      show xs ++ [61, 61] = (xs ++ [61]) ++ [61] by simp]
    unfold stripEqs
    rw [List.getLast?_concat, List.dropLast_concat, List.getLast?_concat, if_pos rfl,
      if_pos rfl, List.dropLast_concat]

theorem dropWhile61_of_ne (l : List Nat) (h : ∀ c ∈ l, c ≠ 61) :
    l.dropWhile (· = 61) = l := by
  cases l with
  | nil => rfl
  | cons c t =>
    rw [List.dropWhile_cons]
    simp only [decide_eq_true_eq, if_neg (h c (by simp))]

theorem dropWhile61_replicate_append (k : Nat) (l : List Nat) :
    (List.replicate k 61 ++ l).dropWhile (· = 61) = l.dropWhile (· = 61) := by
  induction k with
  | zero => rfl
  | succ n ih =>
    rw [List.replicate_succ, List.cons_append, List.dropWhile_cons]
    simp only [decide_eq_true_eq, eq_self_iff_true, if_true, ih]

theorem stripTrailingEq_append_rep (xs : List Nat) (h : ∀ c ∈ xs, c ≠ 61) (k : Nat) :
    stripTrailingEq (xs ++ List.replicate k 61) = xs := by
  unfold stripTrailingEq
  rw [List.reverse_append, List.reverse_replicate, dropWhile61_replicate_append,
    dropWhile61_of_ne _ (fun c hc => h c (List.mem_reverse.mp hc)), List.reverse_reverse]

theorem b64Vals_map (vs : List Nat) (h : ∀ v ∈ vs, v < 64) :
    b64Vals (vs.map b64Chr) = some vs := by
  induction vs with
  | nil => rfl
  | cons v t ih =>
    rw [List.map_cons, b64Vals, b64Val_b64Chr v (h v (by simp)),
      ih (fun x hx => h x (by simp [hx]))]

theorem filter_not_ws (l : List Nat) (h : ∀ c ∈ l, isWsChar c = false) :
    l.filter (fun c => !isWsChar c) = l := by
  apply List.filter_eq_self.mpr
  intro a ha
  simp [h a ha]

theorem btoa_not_ws (b : List Nat) (hb : ∀ x ∈ b, x < 256) :
    ∀ c ∈ btoa b, isWsChar c = false := by
  intro c hc
  rw [btoa_eq, List.mem_append] at hc
  rcases hc with hc | hc
  · obtain ⟨v, hv, rfl⟩ := List.mem_map.mp hc
    exact b64Chr_not_ws v (toSextets_lt b hb v hv)
  · rw [List.eq_of_mem_replicate hc]
    decide

theorem atob_btoa (b : List Nat) (hb : ∀ x ∈ b, x < 256) : atob (btoa b) = some b := by
  have hlt : ∀ v ∈ toSextets b, v < 64 := toSextets_lt b hb
  have hne : ∀ c ∈ (toSextets b).map b64Chr, c ≠ 61 := by
    intro c hc
    obtain ⟨v, hv, rfl⟩ := List.mem_map.mp hc
    exact b64Chr_ne_61 v (hlt v hv)
  have hlen : ((toSextets b).map b64Chr).length = b.length + (b.length + 2) / 3 := by
    rw [List.length_map, toSextets_length]
  have hkle : (3 - b.length % 3) % 3 ≤ 2 := by omega
  have hcond : (List.map b64Chr (toSextets b)
      ++ List.replicate ((3 - b.length % 3) % 3) 61).length % 4 = 0 := by
    simp only [List.length_append, List.length_map, List.length_replicate, toSextets_length]
    omega
  have hcond2 : ¬ (List.map b64Chr (toSextets b)).length % 4 = 1 := by
    rw [List.length_map, toSextets_length]
    omega
  simp only [atob]
  rw [filter_not_ws _ (btoa_not_ws b hb), btoa_eq]
  rw [if_pos hcond,
    stripEqs_append_rep _ hne _ hkle, if_neg hcond2, b64Vals_map _ hlt]
  rw [Option.map, sextets2bytes_toSextets b hb]

theorem base64UrlEncode_eq (s : Str) (h : ∀ c ∈ s, isValidScalar c = true) :
    base64UrlEncode s = (toSextets (utf8Encode s)).map (fun v => urlMapChar (b64Chr v)) := by
  have hb : ∀ x ∈ utf8Encode s, x < 256 := utf8Encode_lt s h
  have hlt : ∀ v ∈ toSextets (utf8Encode s), v < 64 := toSextets_lt _ hb
  unfold base64UrlEncode
  rw [btoa_eq, List.map_append, List.map_replicate, urlMapChar_61, List.map_map,
    stripTrailingEq_append_rep]
  · rfl
  · intro c hc
    obtain ⟨v, hv, rfl⟩ := List.mem_map.mp hc
    exact urlMap_b64Chr_ne_61 v (hlt v hv)

/-! ## Claim C1: encode/decode round-trip -/

/-- Claim C1: for every valid Unicode string `s` (a list of Unicode scalar
values), `base64UrlDecode (base64UrlEncode s) = some s`; in particular decoding
never fails on an encoder output. -/
theorem claim_C1 (s : Str) (h : ∀ c ∈ s, isValidScalar c = true) :
    base64UrlDecode (base64UrlEncode s) = some s := by
  have hb : ∀ x ∈ utf8Encode s, x < 256 := utf8Encode_lt s h
  have hlt : ∀ v ∈ toSextets (utf8Encode s), v < 64 := toSextets_lt _ hb
  have henc := base64UrlEncode_eq s h
  have hunmap : (base64UrlEncode s).map urlUnmapChar
      = (toSextets (utf8Encode s)).map b64Chr := by
    rw [henc, List.map_map]
    apply List.map_congr_left
    intro v hv
    exact urlUnmap_urlMap_b64Chr v (hlt v hv)
  simp only [base64UrlDecode, base64UrlDecodeBytes]
  rw [hunmap]
  have hrep : (4 - ((toSextets (utf8Encode s)).map b64Chr).length % 4) % 4
      = (3 - (utf8Encode s).length % 3) % 3 := by
    rw [List.length_map, toSextets_length]
    omega
  rw [hrep, ← btoa_eq, atob_btoa _ hb]
  rw [Option.map, utf8_roundtrip s h]

/-- Witness for C1: a concrete valid Unicode string with one-, two-, three- and
four-byte characters round-trips; the empty string also round-trips. -/
theorem claim_C1_witness :
    ((∀ c ∈ ([72, 233, 20013, 128512] : Str), isValidScalar c = true)
      ∧ base64UrlDecode (base64UrlEncode [72, 233, 20013, 128512])
          = some [72, 233, 20013, 128512])
    ∧ base64UrlDecode (base64UrlEncode []) = some [] :=
  ⟨⟨by decide, claim_C1 [72, 233, 20013, 128512] (by decide)⟩, claim_C1 [] (by decide)⟩

/-! ## Claim C2: decode failure characterisation -/

theorem isB64uChar_lt (c : Nat) (h : isB64uChar c = true) : c < 123 := by
  simp only [isB64uChar, Bool.or_eq_true, Bool.and_eq_true, decide_eq_true_eq] at h
  omega

theorem b64u_unmap_props : ∀ c : Nat, c < 123 → isB64uChar c = true →
    (b64Val (urlUnmapChar c)).isSome = true ∧ urlUnmapChar c ≠ 61
      ∧ isWsChar (urlUnmapChar c) = false := by decide

theorem b64Vals_isSome (l : List Nat) (h : ∀ c ∈ l, (b64Val c).isSome = true) :
    (b64Vals l).isSome = true := by
  induction l with
  | nil => rfl
  | cons c r ih =>
    rw [b64Vals]
    obtain ⟨v, hv⟩ := Option.isSome_iff_exists.mp (h c (by simp))
    obtain ⟨vs, hvs⟩ := Option.isSome_iff_exists.mp (ih (fun x hx => h x (by simp [hx])))
    rw [hv, hvs]
    rfl

theorem b64Vals_append_61 (xs : List Nat) : b64Vals (xs ++ [61]) = none := by
  induction xs with
  | nil =>
    rfl
  | cons c r ih =>
    rw [List.cons_append, b64Vals, ih]
    cases b64Val c <;> rfl

/-- Counterexample to claim C2 as stated: the token `_w` consists only of
url-safe alphabet characters, its base64 decoding is the single byte 255,
which is not valid UTF-8 — yet `base64UrlDecode` succeeds, returning the
replacement character U+FFFD instead of failing. -/
theorem claim_C2_counterexample :
    base64UrlDecodeBytes (str "_w") = some [255]
    ∧ isUtf8ValidB [255] = false
    ∧ (∀ c ∈ str "_w", isB64uChar c = true)
    ∧ base64UrlDecode (str "_w") = some [0xFFFD] := by decide

theorem filter_not_ws_pad (u : List Nat) (hws : ∀ c ∈ u, isWsChar c = false) (p : Nat) :
    (u ++ List.replicate p 61).filter (fun c => !isWsChar c) = u ++ List.replicate p 61 := by
  apply List.filter_eq_self.mpr
  intro a ha
  rw [List.mem_append] at ha
  rcases ha with ha | ha
  · simp [hws a ha]
  · rw [List.eq_of_mem_replicate ha]
    decide

/-- Claim C2, amended: for a token made only of url-safe base64 alphabet
characters, `base64UrlDecode` succeeds exactly when the token length is not
congruent to 1 modulo 4; in particular it never fails on account of the decoded
bytes being invalid UTF-8. -/
theorem claim_C2 (t : Str) (ht : ∀ c ∈ t, isB64uChar c = true) :
    (base64UrlDecode t).isSome = true ↔ t.length % 4 ≠ 1 := by
  have hprops : ∀ c ∈ t.map urlUnmapChar,
      (b64Val c).isSome = true ∧ c ≠ 61 ∧ isWsChar c = false := by
    intro c hc
    obtain ⟨x, hx, rfl⟩ := List.mem_map.mp hc
    exact b64u_unmap_props x (isB64uChar_lt x (ht x hx)) (ht x hx)
  have hws : ∀ c ∈ t.map urlUnmapChar, isWsChar c = false := fun c hc => (hprops c hc).2.2
  have hne : ∀ c ∈ t.map urlUnmapChar, c ≠ 61 := fun c hc => (hprops c hc).2.1
  have hsome : ∀ c ∈ t.map urlUnmapChar, (b64Val c).isSome = true := fun c hc => (hprops c hc).1
  have hulen : (t.map urlUnmapChar).length = t.length := List.length_map t urlUnmapChar
  simp only [base64UrlDecode, base64UrlDecodeBytes, atob]
  rw [filter_not_ws_pad _ hws, hulen]
  by_cases h1 : t.length % 4 = 1
  · have hp : (4 - t.length % 4) % 4 = 3 := by omega
    rw [hp, show List.replicate 3 (61 : Nat) = [61, 61, 61] from rfl]
    have hsplit : t.map urlUnmapChar ++ [61, 61, 61]
        = ((t.map urlUnmapChar ++ [61]) ++ [61]) ++ [61] := by simp
    have hmod : (t.map urlUnmapChar ++ [61, 61, 61]).length % 4 = 0 := by
      rw [List.length_append, hulen]
      simp only [List.length_cons, List.length_nil]
      omega
    rw [if_pos hmod, hsplit]
    unfold stripEqs
    rw [List.getLast?_concat, List.dropLast_concat, List.getLast?_concat, if_pos rfl,
      if_pos rfl, List.dropLast_concat]
    have hmod2 : ¬ (t.map urlUnmapChar ++ [61]).length % 4 = 1 := by
      rw [List.length_append, hulen]
      simp only [List.length_cons, List.length_nil]
      omega
    rw [if_neg hmod2, b64Vals_append_61]
    simp [h1]
  · have hple : (4 - t.length % 4) % 4 ≤ 2 := by omega
    have hmod : (t.map urlUnmapChar ++ List.replicate ((4 - t.length % 4) % 4) 61).length % 4
        = 0 := by
      rw [List.length_append, hulen, List.length_replicate]
      omega
    rw [if_pos hmod, stripEqs_append_rep _ hne _ hple]
    have hmod2 : ¬ (t.map urlUnmapChar).length % 4 = 1 := by
      rw [hulen]
      omega
    rw [if_neg hmod2]
    constructor
    · intro _
      exact h1
    · intro _
      obtain ⟨vs, hvs⟩ := Option.isSome_iff_exists.mp (b64Vals_isSome _ hsome)
      rw [hvs]
      rfl

/-- Witness for the amended C2: a concrete alphabet-only token of length 4
decodes successfully, and a concrete alphabet-only token of length 1 fails. -/
theorem claim_C2_witness :
    ((∀ c ∈ str "QUJD", isB64uChar c = true) ∧ (base64UrlDecode (str "QUJD")).isSome = true)
    ∧ ((∀ c ∈ str "A", isB64uChar c = true) ∧ (base64UrlDecode (str "A")).isSome = false) := by
  constructor
  · exact ⟨by decide, (claim_C2 (str "QUJD") (by decide)).mpr (by decide)⟩
  · refine ⟨by decide, ?_⟩
    have h := (claim_C2 (str "A") (by decide))
    rcases hb : (base64UrlDecode (str "A")).isSome with _ | _
    · rfl
    · exact absurd (by decide : (str "A").length % 4 = 1) (h.mp hb)

/-! ## Percent decoding (models decodeURIComponent and URLSearchParams decoding) -/

/-- Value of an ASCII hex digit. -/
def hexVal (c : Nat) : Option Nat :=
  if 48 ≤ c ∧ c ≤ 57 then some (c - 48)
  else if 65 ≤ c ∧ c ≤ 70 then some (c - 55)
  else if 97 ≤ c ∧ c ≤ 102 then some (c - 87)
  else none

/-- Tokenise a percent-encoded string into literal characters (`inl`) and
escaped bytes (`inr`), failing on a `%` not followed by two hex digits, as the
strict `decodeURIComponent` does. -/
def pctTokens : Str → Option (List (Nat ⊕ Nat))
  | [] => some []
  | 37 :: h1 :: h2 :: r =>
    match hexVal h1, hexVal h2 with
    | some a, some b => (pctTokens r).map (.inr (a * 16 + b) :: ·)
    | _, _ => none
  | 37 :: _ => none
  | c :: r => (pctTokens r).map (.inl c :: ·)

/-- Decode the token stream of a percent-encoded string: literal characters pass
through, maximal runs of escaped bytes must form strict UTF-8 scalar sequences,
as in the ECMAScript `decodeURIComponent` algorithm (URIError modelled as
`none`). -/
def pctDecodeTokens : List (Nat ⊕ Nat) → Option Str
  | [] => some []
  | .inl c :: r => (pctDecodeTokens r).map (c :: ·)
  | .inr b :: r =>
    if b < 0x80 then (pctDecodeTokens r).map (b :: ·)
    else if 0xC2 ≤ b ∧ b < 0xE0 then
      match r with
      | .inr b2 :: r2 =>
        if 0x80 ≤ b2 ∧ b2 < 0xC0 then
          (pctDecodeTokens r2).map (((b - 0xC0) * 64 + (b2 - 0x80)) :: ·)
        else none
      | _ => none
    else if 0xE0 ≤ b ∧ b < 0xF0 then
      match r with
      | .inr b2 :: .inr b3 :: r3 =>
        if ((if b = 0xE0 then 0xA0 else 0x80) ≤ b2 ∧ b2 ≤ (if b = 0xED then 0x9F else 0xBF))
            ∧ (0x80 ≤ b3 ∧ b3 < 0xC0) then
          (pctDecodeTokens r3).map
            (((b - 0xE0) * 4096 + (b2 - 0x80) * 64 + (b3 - 0x80)) :: ·)
        else none
      | _ => none
    else if 0xF0 ≤ b ∧ b < 0xF5 then
      match r with
      | .inr b2 :: .inr b3 :: .inr b4 :: r4 =>
        if ((if b = 0xF0 then 0x90 else 0x80) ≤ b2 ∧ b2 ≤ (if b = 0xF4 then 0x8F else 0xBF))
            ∧ (0x80 ≤ b3 ∧ b3 < 0xC0) ∧ (0x80 ≤ b4 ∧ b4 < 0xC0) then
          (pctDecodeTokens r4).map
            (((b - 0xF0) * 262144 + (b2 - 0x80) * 4096 + (b3 - 0x80) * 64 + (b4 - 0x80)) :: ·)
        else none
      | _ => none
    else none

/-- Strict percent decoding (models the platform `decodeURIComponent`; `none`
models the thrown `URIError` on a malformed escape or malformed UTF-8). -/
def decodeURIComponentM (s : Str) : Option Str := (pctTokens s).bind pctDecodeTokens

/-- Forgiving percent decoding to bytes (models the WHATWG percent-decode used
by `URLSearchParams`: an invalid escape passes the `%` through literally). -/
def formBytes : Str → List Nat
  | [] => []
  | 37 :: h1 :: h2 :: r =>
    match hexVal h1, hexVal h2 with
    | some a, some b => (a * 16 + b) :: formBytes r
    | _, _ => 37 :: formBytes (h1 :: h2 :: r)
  | c :: r => utf8EncodeChar c ++ formBytes r

/-- Value decoding of `application/x-www-form-urlencoded` (models the
`URLSearchParams` getter: plus becomes space, then forgiving percent decoding,
then UTF-8 decoding with replacement). -/
def formDecode (s : Str) : Str :=
  utf8DecodeReplace (formBytes (s.map (fun c => if c = 43 then 32 else c)))

/-! ## String helpers for the link parser -/

/-- Split at the first occurrence of `sep`: the part before it, and (when the
separator occurs) the whole remainder after it. -/
def breakAt (sep : Nat) : Str → Str × Option Str
  | [] => ([], none)
  | c :: r =>
    if c = sep then ([], some r)
    else
      match breakAt sep r with
      | (x, y) => (c :: x, y)

/-- Split on every occurrence of `sep` (as `String.prototype.split` without a
limit does). -/
def splitOnChar (sep : Nat) : Str → List Str
  | [] => [[]]
  | c :: r =>
    if c = sep then [] :: splitOnChar sep r
    else
      match splitOnChar sep r with
      | [] => [[c]]
      | x :: xs => (c :: x) :: xs

/-- First `file` query parameter of a query string, decoded as
`URLSearchParams.get` decodes it. -/
def findFileParam : List Str → Option Str
  | [] => none
  | p :: rest =>
    match breakAt 61 p with
    | (n, v) =>
      if formDecode n = str "file" then some (formDecode (v.getD [])) else findFileParam rest

/-- Model of the platform URL API on an `obsidian://` deep link: the
percent-decoded (forgivingly, as `URLSearchParams` does) `file` query parameter
together with `u.hash` (the fragment with its leading `#`, or empty). -/
def urlFileParam (raw : Str) : Option (Str × Str) :=
  match breakAt 35 raw with
  | (preHash, frag) =>
    let hash := match frag with
      | some f => if f = [] then [] else 35 :: f
      | none => []
    match (breakAt 63 preHash).2 with
    | none => none
    | some q =>
      match findFileParam (splitOnChar 38 q) with
      | none => none
      | some v => some (v, hash)

/-- ASCII lowercasing of one code point (models `String.prototype.toLowerCase`
on the ASCII range, which is all the `.epub` suffix check depends on). -/
def lowerAscii (c : Nat) : Nat := if 65 ≤ c ∧ c ≤ 90 then c + 32 else c

/-- Model of Obsidian's `normalizePath`: non-breaking spaces become plain
spaces, backslashes become slashes, runs of slashes collapse, and leading and
trailing slashes are removed. -/
def collapseSlashes : Str → Str
  | [] => []
  | [c] => [c]
  | c :: c2 :: r =>
    if c = 47 ∧ c2 = 47 then collapseSlashes (c2 :: r)
    else c :: collapseSlashes (c2 :: r)

def normChar (c : Nat) : Nat :=
  if c = 92 then 47 else if c = 160 ∨ c = 8239 then 32 else c

def normalizePath (p : Str) : Str :=
  (((collapseSlashes (p.map normChar)).dropWhile (· = 47)).reverse.dropWhile (· = 47)).reverse

/-- Embedding of `normalizeProgressKey` (src/shared/utils.ts lines 69-71). -/
def normalizeProgressKey (bookPath : Str) : Str := normalizePath bookPath

/-! ## parseEpubCfi64Link (src/shared/utils.ts lines 42-67) -/

/-- The `obsidian://` deep-link rewriting step of `parseEpubCfi64Link`: inside a
`try`, extract the `file` query parameter, strictly percent-decode it and append
the hash; any failure (no parameter, empty parameter, `decodeURIComponent`
throw) is caught and leaves the raw string unchanged. -/
def obsidianRewrite (raw : Str) : Str :=
  if (str "obsidian://").isPrefixOf raw then
    match urlFileParam raw with
    | some (fileParam, hash) =>
      if fileParam = [] then raw
      else
        match decodeURIComponentM fileParam with
        | some decoded => decoded ++ hash
        | none => raw
    | none => raw
  else raw

/-- First `cfi64=` token of a fragment: the marker `cfi64=` followed by a
nonempty maximal run of `[A-Za-z0-9_-]` characters, searching left to right as
`String.prototype.match` does. -/
def findCfiToken : Str → Option Str
  | 99 :: 102 :: 105 :: 54 :: 52 :: 61 :: rest =>
    if (rest.takeWhile isB64uChar).isEmpty then findCfiToken rest
    else some (rest.takeWhile isB64uChar)
  | _ :: rest => findCfiToken rest
  | [] => none

/-- Embedding of `parseEpubCfi64Link` (src/shared/utils.ts lines 42-67).
`Except.error ()` models an uncaught exception: the only source of one is the
`decodeURIComponent` applied to the path part outside any `try`. -/
def parseEpubCfi64Link (input : Str) : Except Unit (Option (Str × Str)) :=
  if input = [] then .ok none
  else
    match decodeURIComponentM ((breakAt 35 (obsidianRewrite input)).1) with
    | none => .error ()
    | some pathPart =>
      if ¬ ((str ".epub").isSuffixOf (pathPart.map lowerAscii)) then .ok none
      else
        match (breakAt 35 (obsidianRewrite input)).2 with
        | none => .ok none
        | some h2 =>
          match h2.takeWhile (fun c => c ≠ 35) with
          | [] => .ok none
          | hc :: hrest =>
            match findCfiToken (hc :: hrest) with
            | none => .ok none
            | some tok => .ok (some (normalizePath pathPart, tok))

/-! ## Claim C3: parser totality -/

/-- Counterexample to claim C3 as stated: on the input `%` the function throws
a `URIError` from the unguarded `decodeURIComponent` of the path part (modelled
as `Except.error`), so it does not return a result or null for every input. -/
theorem claim_C3_counterexample : parseEpubCfi64Link (str "%") = .error () := by rfl

/-- Claim C3, amended: `parseEpubCfi64Link` raises exactly when the strict
percent-decoding of the path part (after the guarded `obsidian://` rewriting)
throws; for every other input it returns a result or null, and null for wrong
extension, missing fragment or missing `cfi64=` token is a normal outcome. -/
theorem claim_C3 (s : Str) :
    parseEpubCfi64Link s = .error ()
      ↔ decodeURIComponentM ((breakAt 35 (obsidianRewrite s)).1) = none := by
  by_cases hinp : s = []
  · subst hinp
    refine iff_of_false ?_ (by decide)
    intro h
    rw [show parseEpubCfi64Link [] = Except.ok none from rfl] at h
    exact Except.noConfusion h
  · rw [parseEpubCfi64Link, if_neg hinp]
    rcases hd : decodeURIComponentM ((breakAt 35 (obsidianRewrite s)).1) with _ | d
    · simp
    · refine iff_of_false ?_ (by simp)
      intro hcontra
      simp only [] at hcontra
      split at hcontra
      · exact Except.noConfusion hcontra
      · split at hcontra
        · exact Except.noConfusion hcontra
        · split at hcontra
          · exact Except.noConfusion hcontra
          · split at hcontra
            · exact Except.noConfusion hcontra
            · exact Except.noConfusion hcontra

/-- Witness for the amended C3: a concrete input with a malformed percent
escape in its path part raises. -/
theorem claim_C3_witness : parseEpubCfi64Link (str "%zz") = .error () :=
  (claim_C3 (str "%zz")).mpr (by rfl)

/-! ## Reading store (src/shared/models.ts, ReadingStore) -/

/-- Location stored in a progress entry: a string or a number, as in the
TypeScript union `string | number`. -/
inductive LocVal where
  | strv (s : Str)
  | numv (n : Int)
deriving DecidableEq

/-- One progress record (`BookProgress` in src/shared/models.ts lines 95-102).
Optional numeric fields are `Option Nat` mirroring the optional TypeScript
fields (`?? 0` reads); the nullable timestamps collapse `undefined` and `null`
into `none`, which is faithful because every read uses loose equality or the
`=== undefined` normalisation of `ensureBookProgress`. -/
structure BookProgress where
  location : LocVal
  updatedAt : Nat
  totalReadTimeMs : Option Nat
  sessionCount : Option Nat
  lastOpenedAt : Option Nat
  lastReadAt : Option Nat
deriving DecidableEq

/-- Statistics view (`ReadingStats` in src/shared/models.ts lines 1-6). -/
structure ReadingStats where
  totalReadTimeMs : Nat
  sessionCount : Nat
  lastOpenedAt : Option Nat
  lastReadAt : Option Nat
deriving DecidableEq

/-- The progress map: a JavaScript object modelled as an association list in
insertion order with unique keys. -/
abbrev ProgressMap := List (Str × BookProgress)

/-- Property read on a JavaScript object: the value at a key, if present. -/
def jsLookup (m : ProgressMap) (k : Str) : Option BookProgress :=
  match m with
  | [] => none
  | (k2, v) :: rest => if k2 = k then some v else jsLookup rest k

/-- Replace the value stored at a key, keeping insertion order. -/
def jsSetReplace : ProgressMap → Str → BookProgress → ProgressMap
  | [], _, _ => []
  | (k2, v2) :: rest, k, v =>
    if k2 = k then (k, v) :: jsSetReplace rest k v else (k2, v2) :: jsSetReplace rest k v

/-- Property write on a JavaScript object: replace in place when the key is
present, otherwise append in insertion order. -/
def jsSet (m : ProgressMap) (k : Str) (v : BookProgress) : ProgressMap :=
  if (jsLookup m k).isSome then jsSetReplace m k v else m ++ [(k, v)]

/-- Property delete on a JavaScript object. -/
def jsDelete (m : ProgressMap) (k : Str) : ProgressMap :=
  m.filter (fun e => !(e.1 = k : Bool))

theorem jsLookup_jsDelete (m : ProgressMap) (k k2 : Str) :
    jsLookup (jsDelete m k) k2 = if k2 = k then none else jsLookup m k2 := by
  induction m with
  | nil => simp [jsDelete, jsLookup]
  | cons e rest ih =>
    obtain ⟨ke, ve⟩ := e
    by_cases hek : ke = k <;> by_cases h2 : k2 = k <;> by_cases h3 : ke = k2 <;>
      simp_all [jsDelete, jsLookup, List.filter_cons]

theorem jsLookup_jsSetReplace (m : ProgressMap) (k k2 : Str) (v : BookProgress) :
    jsLookup (jsSetReplace m k v) k2
      = if k2 = k then (if (jsLookup m k).isSome then some v else none)
        else jsLookup m k2 := by
  induction m with
  | nil => by_cases h2 : k2 = k <;> simp [jsSetReplace, jsLookup, h2]
  | cons e rest ih =>
    obtain ⟨ke, ve⟩ := e
    by_cases hek : ke = k <;> by_cases h2 : k2 = k <;> by_cases h3 : ke = k2 <;>
      simp_all [jsSetReplace, jsLookup]

theorem jsLookup_append_single (m : ProgressMap) (k k2 : Str) (v : BookProgress) :
    jsLookup (m ++ [(k, v)]) k2
      = if (jsLookup m k2).isSome then jsLookup m k2
        else if k = k2 then some v else none := by
  induction m with
  | nil => simp [jsLookup]
  | cons e rest ih =>
    obtain ⟨ke, ve⟩ := e
    by_cases h3 : ke = k2 <;> simp_all [jsLookup]

theorem jsLookup_jsSet (m : ProgressMap) (k k2 : Str) (v : BookProgress) :
    jsLookup (jsSet m k v) k2 = if k2 = k then some v else jsLookup m k2 := by
  unfold jsSet
  by_cases hs : (jsLookup m k).isSome = true
  · rw [if_pos hs, jsLookup_jsSetReplace, if_pos hs]
  · rw [if_neg hs, jsLookup_append_single]
    by_cases h2 : k2 = k
    · subst h2
      rw [if_neg hs, if_pos rfl, if_pos rfl]
    · rw [if_neg h2]
      by_cases hs2 : (jsLookup m k2).isSome = true
      · rw [if_pos hs2]
      · rw [if_neg hs2, if_neg (fun hc => h2 hc.symm)]
        exact (Option.not_isSome_iff_eq_none.mp hs2).symm

theorem jsLookup_isSome_iff (m : ProgressMap) (k : Str) :
    (jsLookup m k).isSome = true ↔ k ∈ m.map Prod.fst := by
  induction m with
  | nil => simp [jsLookup]
  | cons e rest ih =>
    obtain ⟨ke, ve⟩ := e
    simp only [jsLookup, List.map_cons, List.mem_cons]
    by_cases hek : ke = k
    · subst hek
      simp
    · rw [if_neg hek, ih]
      constructor
      · intro hm
        exact Or.inr hm
      · intro hm
        rcases hm with hm | hm
        · exact absurd hm.symm hek
        · exact hm

/-- Embedding of `ReadingStore.ensureBookProgress` (src/shared/models.ts lines
253-274): lazily create a zero record, or fill missing optional fields of an
existing one; returns the (normalised) entry and the updated map. -/
def ReadingStore.ensureBookProgress (ps : ProgressMap) (bookPath : Str) :
    BookProgress × ProgressMap :=
  match jsLookup ps (normalizeProgressKey bookPath) with
  | none =>
    (⟨.numv 0, 0, some 0, some 0, none, none⟩,
      jsSet ps (normalizeProgressKey bookPath) ⟨.numv 0, 0, some 0, some 0, none, none⟩)
  | some e =>
    ({ e with
        totalReadTimeMs := some (e.totalReadTimeMs.getD 0)
        sessionCount := some (e.sessionCount.getD 0) },
      jsSet ps (normalizeProgressKey bookPath)
        { e with
            totalReadTimeMs := some (e.totalReadTimeMs.getD 0)
            sessionCount := some (e.sessionCount.getD 0) })

/-- Embedding of `ReadingStore.setProgress` (src/shared/models.ts lines
164-169); `now` is the value of `Date.now()` at the call. -/
def ReadingStore.setProgress (ps : ProgressMap) (bookPath : Str) (location : LocVal)
    (now : Nat) : ProgressMap :=
  match ReadingStore.ensureBookProgress ps bookPath with
  | (e, ps1) =>
    jsSet ps1 (normalizeProgressKey bookPath) { e with location := location, updatedAt := now }

/-- The activity filter of `listReadingStats` (src/shared/models.ts lines
198-205): nonzero time, nonzero sessions, a non-null timestamp, or a nonzero
`updatedAt`. -/
def entryHasActivity (e : BookProgress) : Bool :=
  decide (0 < e.totalReadTimeMs.getD 0) || decide (0 < e.sessionCount.getD 0)
    || e.lastOpenedAt.isSome || e.lastReadAt.isSome || decide (0 < e.updatedAt)

/-- The stats projection of `listReadingStats` (src/shared/models.ts lines
207-215). -/
def statsOf (e : BookProgress) : ReadingStats :=
  ⟨e.totalReadTimeMs.getD 0, e.sessionCount.getD 0, e.lastOpenedAt, e.lastReadAt⟩

/-- Embedding of `ReadingStore.listReadingStats` (src/shared/models.ts lines
196-216). -/
def ReadingStore.listReadingStats (ps : ProgressMap) : List (Str × ReadingStats) :=
  (ps.filter (fun pe => entryHasActivity pe.2)).map (fun pe => (pe.1, statsOf pe.2))

/-- A folder prefix: the key itself when it already ends in a slash, otherwise
the key with a slash appended (src/shared/models.ts lines 224-225). -/
def withSlash (k : Str) : Str := if k.getLast? = some 47 then k else k ++ [47]

/-- The destination key of a moved entry: the new prefix followed by the part
of the key after the old prefix. -/
def movedKey (oldPre newPre k : Str) : Str := newPre ++ k.drop oldPre.length

/-- One iteration of the folder-rename loop (src/shared/models.ts lines
229-235): a key under the old prefix is re-keyed unless the destination is
already present, and the old key is deleted either way. -/
def renameFolderStep (oldPre newPre : Str) (next : ProgressMap) (kv : Str × BookProgress) :
    ProgressMap :=
  if oldPre.isPrefixOf kv.1 then
    jsDelete
      (if (jsLookup next (movedKey oldPre newPre kv.1)).isSome then next
        else jsSet next (movedKey oldPre newPre kv.1) kv.2)
      kv.1
  else next

/-- The conditional copy of the single-entry rename (src/shared/models.ts lines
244-246): copy the source entry to the destination only when the source exists
and the destination does not. -/
def renameSingleSet (ps : ProgressMap) (oldKey newKey : Str) : ProgressMap :=
  match jsLookup ps oldKey, jsLookup ps newKey with
  | some v, none => jsSet ps newKey v
  | _, _ => ps

/-- The single-entry rename (src/shared/models.ts lines 244-250): the
conditional copy followed by deleting the source entry when it exists. -/
def renameSingle (ps : ProgressMap) (oldKey newKey : Str) : ProgressMap :=
  if (jsLookup (renameSingleSet ps oldKey newKey) oldKey).isSome then
    jsDelete (renameSingleSet ps oldKey newKey) oldKey
  else renameSingleSet ps oldKey newKey

/-- Embedding of `ReadingStore.renameProgress` (src/shared/models.ts lines
218-251).  The store state is its progress map; the folder branch iterates over
the original entries in insertion order mutating a copy, as
`Object.entries`/`delete` do. -/
def ReadingStore.renameProgress (ps : ProgressMap) (oldPath newPath : Str)
    (isFolder : Bool) : ProgressMap :=
  if normalizeProgressKey oldPath = [] ∨ normalizeProgressKey newPath = [] then ps
  else if isFolder then
    ps.foldl
      (renameFolderStep (withSlash (normalizeProgressKey oldPath))
        (withSlash (normalizeProgressKey newPath)))
      ps
  else renameSingle ps (normalizeProgressKey oldPath) (normalizeProgressKey newPath)

/-! ## Claim C5: single-entry rename idempotence -/

theorem renameSingle_lookup_old (ps : ProgressMap) (oldKey newKey : Str) :
    jsLookup (renameSingle ps oldKey newKey) oldKey = none := by
  unfold renameSingle
  by_cases h : (jsLookup (renameSingleSet ps oldKey newKey) oldKey).isSome = true
  · rw [if_pos h, jsLookup_jsDelete, if_pos rfl]
  · rw [if_neg h]
    exact Option.not_isSome_iff_eq_none.mp h

theorem renameSingle_of_absent (ps : ProgressMap) (oldKey newKey : Str)
    (h : jsLookup ps oldKey = none) : renameSingle ps oldKey newKey = ps := by
  have hset : renameSingleSet ps oldKey newKey = ps := by
    unfold renameSingleSet
    rw [h]
  unfold renameSingle
  rw [hset, h]
  rfl

theorem renameProgress_false_eq (ps : ProgressMap) (oldPath newPath : Str) :
    ReadingStore.renameProgress ps oldPath newPath false
      = if normalizeProgressKey oldPath = [] ∨ normalizeProgressKey newPath = [] then ps
        else renameSingle ps (normalizeProgressKey oldPath) (normalizeProgressKey newPath) := by
  unfold ReadingStore.renameProgress
  by_cases hempty : normalizeProgressKey oldPath = [] ∨ normalizeProgressKey newPath = []
  · simp only [if_pos hempty]
  · simp only [if_neg hempty, if_neg (by simp : ¬ ((false : Bool) = true))]

/-- Claim C5: `renameProgress(a, b, false)` is idempotent — applying it twice
equals applying it once — and when no entry exists at the (normalised) source
key the store is left unchanged. -/
theorem claim_C5 (ps : ProgressMap) (oldPath newPath : Str) :
    ReadingStore.renameProgress (ReadingStore.renameProgress ps oldPath newPath false)
        oldPath newPath false
      = ReadingStore.renameProgress ps oldPath newPath false
    ∧ (jsLookup ps (normalizeProgressKey oldPath) = none →
        ReadingStore.renameProgress ps oldPath newPath false = ps) := by
  simp only [renameProgress_false_eq]
  by_cases hempty : normalizeProgressKey oldPath = [] ∨ normalizeProgressKey newPath = []
  · simp only [if_pos hempty]
    exact ⟨trivial, fun _ => trivial⟩
  · simp only [if_neg hempty]
    constructor
    · exact renameSingle_of_absent _ _ _ (renameSingle_lookup_old ps _ _)
    · intro h
      exact renameSingle_of_absent _ _ _ h

/-- Witness for C5: a concrete store with entries at `a` and `c`; renaming
`a` to `b` twice equals renaming once, and renaming the absent `x` to `y` is a
no-op. -/
theorem claim_C5_witness :
    (ReadingStore.renameProgress
        (ReadingStore.renameProgress
          [(str "a", ⟨.numv 3, 1, some 0, some 0, none, none⟩),
            (str "c", ⟨.numv 4, 2, some 0, some 0, none, none⟩)] (str "a") (str "b") false)
        (str "a") (str "b") false
      = ReadingStore.renameProgress
          [(str "a", ⟨.numv 3, 1, some 0, some 0, none, none⟩),
            (str "c", ⟨.numv 4, 2, some 0, some 0, none, none⟩)] (str "a") (str "b") false)
    ∧ ReadingStore.renameProgress
        [(str "a", ⟨.numv 3, 1, some 0, some 0, none, none⟩),
          (str "c", ⟨.numv 4, 2, some 0, some 0, none, none⟩)] (str "x") (str "y") false
      = [(str "a", ⟨.numv 3, 1, some 0, some 0, none, none⟩),
          (str "c", ⟨.numv 4, 2, some 0, some 0, none, none⟩)] :=
  ⟨(claim_C5 _ (str "a") (str "b")).1, (claim_C5 _ (str "x") (str "y")).2 (by decide)⟩

/-! ## Claim C6: the listReadingStats filter -/

/-- The claim's notion of recorded activity: nonzero time, nonzero sessions,
or a set `lastOpenedAt`/`lastReadAt` timestamp (it does not count `updatedAt`). -/
def claimRecordedActivity (e : BookProgress) : Bool :=
  decide (0 < e.totalReadTimeMs.getD 0) || decide (0 < e.sessionCount.getD 0)
    || e.lastOpenedAt.isSome || e.lastReadAt.isSome

/-- Counterexample to claim C6 as stated: a store whose only mutation is one
`setProgress` holds a single record with zero time, zero sessions and no
timestamps — no recorded activity in the claim's sense — yet
`listReadingStats` returns it, because the filter also admits `updatedAt > 0`,
which `setProgress` always sets. -/
theorem claim_C6_counterexample :
    jsLookup (ReadingStore.setProgress [] (str "b") (.numv 7) 5) (str "b")
        = some ⟨.numv 7, 5, some 0, some 0, none, none⟩
    ∧ claimRecordedActivity ⟨.numv 7, 5, some 0, some 0, none, none⟩ = false
    ∧ ReadingStore.listReadingStats (ReadingStore.setProgress [] (str "b") (.numv 7) 5)
        = [(str "b", ⟨0, 0, none, none⟩)] := by decide

/-- Claim C6, amended: `listReadingStats` returns exactly the entries whose
record shows activity in the code's sense — nonzero time, nonzero sessions, a
set `lastOpenedAt`/`lastReadAt`, or a nonzero `updatedAt` (so entries touched
only by `setProgress` are included); never-touched all-zero lazy records are
excluded. -/
theorem claim_C6 (ps : ProgressMap) (p : Str) (s : ReadingStats) :
    (p, s) ∈ ReadingStore.listReadingStats ps
      ↔ ∃ e, (p, e) ∈ ps ∧ entryHasActivity e = true ∧ s = statsOf e := by
  unfold ReadingStore.listReadingStats
  constructor
  · intro hm
    obtain ⟨⟨q, e⟩, hqe, heq⟩ := List.mem_map.mp hm
    obtain ⟨hmem, hact⟩ := List.mem_filter.mp hqe
    have hq : q = p := congrArg Prod.fst heq
    have hs : statsOf e = s := congrArg Prod.snd heq
    rw [hq] at hmem
    exact ⟨e, hmem, hact, hs.symm⟩
  · rintro ⟨e, hmem, hact, rfl⟩
    exact List.mem_map.mpr ⟨(p, e), List.mem_filter.mpr ⟨hmem, hact⟩, rfl⟩

/-- Witness for the amended C6: a record with one session is listed with its
stats, and the all-zero lazy record is not listed. -/
theorem claim_C6_witness :
    ((str "b", (⟨0, 1, some 3, none⟩ : ReadingStats))
        ∈ ReadingStore.listReadingStats
            [(str "b", ⟨.numv 0, 0, some 0, some 1, some 3, none⟩)])
    ∧ ¬ ∃ s, (str "z", s)
        ∈ ReadingStore.listReadingStats
            [(str "z", ⟨.numv 0, 0, some 0, some 0, none, none⟩)] := by
  constructor
  · exact (claim_C6 _ _ _).mpr ⟨⟨.numv 0, 0, some 0, some 1, some 3, none⟩,
      by decide, by decide, by decide⟩
  · intro ⟨s, hs⟩
    obtain ⟨e, hmem, hact, rfl⟩ := (claim_C6 _ _ _).mp hs
    rw [show e = ⟨.numv 0, 0, some 0, some 0, none, none⟩ by
      rcases List.mem_singleton.mp hmem with h
      exact (Prod.mk.injEq .. ▸ h).2] at hact
    exact absurd hact (by decide)

/-! ## Claim C4: folder rename prefix rewrite -/

/-- The claim's description of a folder rename, as a lookup function: nothing
remains under the old prefix; at a destination key the pre-existing entry wins,
else the moved source entry lands there; other keys are untouched. -/
def renameFolderSpec (ps : ProgressMap) (O N k : Str) : Option BookProgress :=
  if O <+: k then none
  else if N <+: k then
    match jsLookup ps k with
    | some w => some w
    | none => jsLookup ps (O ++ k.drop N.length)
  else jsLookup ps k

/-- Intermediate description of the folder-rename fold after processing the
entries whose keys are listed in `P`. -/
def renInv (ps : ProgressMap) (O N : Str) (P : List Str) (k : Str) : Option BookProgress :=
  if O <+: k ∧ k ∈ P then none
  else if N <+: k ∧ jsLookup ps k = none ∧ (O ++ k.drop N.length) ∈ P then
    jsLookup ps (O ++ k.drop N.length)
  else jsLookup ps k

theorem jsLookup_append_cons_self (pre post : ProgressMap) (j : Str) (v : BookProgress)
    (h : j ∉ pre.map Prod.fst) : jsLookup (pre ++ (j, v) :: post) j = some v := by
  induction pre with
  | nil => simp [jsLookup]
  | cons e rest ih =>
    obtain ⟨ke, ve⟩ := e
    simp only [List.map_cons, List.mem_cons] at h
    push_neg at h
    rw [List.cons_append]
    show (if ke = j then some ve else jsLookup (rest ++ (j, v) :: post) j) = some v
    rw [if_neg (fun hc => h.1 hc.symm)]
    exact ih h.2

theorem renInv_old_mem (ps : ProgressMap) (O N : Str) (P : List Str) (k : Str)
    (h1 : O <+: k) (h2 : k ∈ P) : renInv ps O N P k = none := by
  unfold renInv
  rw [if_pos ⟨h1, h2⟩]

theorem renInv_moved (ps : ProgressMap) (O N : Str) (P : List Str) (k : Str)
    (h1 : ¬ (O <+: k ∧ k ∈ P)) (h2 : N <+: k) (h3 : jsLookup ps k = none)
    (h4 : (O ++ k.drop N.length) ∈ P) :
    renInv ps O N P k = jsLookup ps (O ++ k.drop N.length) := by
  unfold renInv
  rw [if_neg h1, if_pos ⟨h2, h3, h4⟩]

theorem renInv_other (ps : ProgressMap) (O N : Str) (P : List Str) (k : Str)
    (h1 : ¬ (O <+: k ∧ k ∈ P))
    (h2 : ¬ (N <+: k ∧ jsLookup ps k = none ∧ (O ++ k.drop N.length) ∈ P)) :
    renInv ps O N P k = jsLookup ps k := by
  unfold renInv
  rw [if_neg h1, if_neg h2]

theorem renInv_extend (ps : ProgressMap) (O N : Str) (P : List Str) (j k : Str)
    (hkj : ¬ (O <+: k ∧ k = j))
    (hsrcj : ¬ (N <+: k ∧ jsLookup ps k = none ∧ O ++ k.drop N.length = j)) :
    renInv ps O N (P ++ [j]) k = renInv ps O N P k := by
  have h1 : (O <+: k ∧ k ∈ P ++ [j]) ↔ (O <+: k ∧ k ∈ P) := by
    constructor
    · rintro ⟨h, hm⟩
      rcases List.mem_append.mp hm with hm | hm
      · exact ⟨h, hm⟩
      · exact absurd ⟨h, List.mem_singleton.mp hm⟩ hkj
    · rintro ⟨h, hm⟩
      exact ⟨h, List.mem_append_left _ hm⟩
  have h2 : (N <+: k ∧ jsLookup ps k = none ∧ (O ++ k.drop N.length) ∈ P ++ [j])
      ↔ (N <+: k ∧ jsLookup ps k = none ∧ (O ++ k.drop N.length) ∈ P) := by
    constructor
    · rintro ⟨h, hl, hm⟩
      rcases List.mem_append.mp hm with hm | hm
      · exact ⟨h, hl, hm⟩
      · exact absurd ⟨h, hl, List.mem_singleton.mp hm⟩ hsrcj
    · rintro ⟨h, hl, hm⟩
      exact ⟨h, hl, List.mem_append_left _ hm⟩
  unfold renInv
  simp only [h1, h2]

theorem renameFold_step_inv (ps : ProgressMap) (O N : Str)
    (hON : ¬ O <+: N) (hNO : ¬ N <+: O)
    (pre post : ProgressMap) (j : Str) (v : BookProgress)
    (hps : ps = pre ++ (j, v) :: post)
    (hnd : (ps.map Prod.fst).Nodup)
    (next : ProgressMap)
    (hnext : ∀ k, jsLookup next k = renInv ps O N (pre.map Prod.fst) k) :
    ∀ k, jsLookup (renameFolderStep O N next (j, v)) k
      = renInv ps O N (pre.map Prod.fst ++ [j]) k := by
  have hnd2 : (pre.map Prod.fst).Disjoint (((j, v) :: post).map Prod.fst) := by
    rw [hps, List.map_append] at hnd
    exact (List.nodup_append.mp hnd).2.2
  have hjpre : j ∉ pre.map Prod.fst := fun hc => hnd2 hc (by simp)
  have hjv : jsLookup ps j = some v := by
    rw [hps]
    exact jsLookup_append_cons_self pre post j v hjpre
  have hjP : j ∈ pre.map Prod.fst ++ [j] := List.mem_append_right _ (by simp)
  intro k
  by_cases hOj : O <+: j
  · obtain ⟨jt, hjt⟩ := hOj
    have hOjj : O <+: j := ⟨jt, hjt⟩
    have hdropj : j.drop O.length = jt := by rw [← hjt, List.drop_left]
    have hNm : N <+: movedKey O N j := ⟨_, rfl⟩
    have hOm : ¬ O <+: movedKey O N j := by
      intro hc
      rcases List.prefix_or_prefix_of_prefix hc hNm with h | h
      · exact hON h
      · exact hNO h
    have hsrcm : O ++ (movedKey O N j).drop N.length = j := by
      rw [movedKey, List.drop_left, hdropj, hjt]
    have hmj : movedKey O N j ≠ j := fun hc => hOm (by rw [hc]; exact hOjj)
    -- when the source of a key equals j, the key is the moved key
    have hsrc_eq : ∀ k2, N <+: k2 → O ++ k2.drop N.length = j → k2 = movedKey O N j := by
      intro k2 hNk2 hsrc
      obtain ⟨kt, hkt⟩ := hNk2
      have hdk : k2.drop N.length = kt := by rw [← hkt, List.drop_left]
      rw [hdk] at hsrc
      have hktj : kt = jt := List.append_cancel_left (hsrc.trans hjt.symm)
      rw [movedKey, ← hkt, hktj, hdropj]
    have hlm : jsLookup next (movedKey O N j) = jsLookup ps (movedKey O N j) := by
      rw [hnext]
      apply renInv_other
      · rintro ⟨hc, _⟩
        exact hOm hc
      · rintro ⟨_, _, hc⟩
        apply hjpre
        rw [hsrcm] at hc
        exact hc
    have hstep : renameFolderStep O N next (j, v)
        = jsDelete
            (if (jsLookup next (movedKey O N j)).isSome then next
              else jsSet next (movedKey O N j) v) j := by
      unfold renameFolderStep
      rw [if_pos (by simpa [List.isPrefixOf_iff_prefix] using hOjj)]
    rw [hstep]
    by_cases hm : jsLookup ps (movedKey O N j) = none
    · rw [if_neg (by simp [hlm, hm]), jsLookup_jsDelete, jsLookup_jsSet]
      by_cases hkj : k = j
      · subst hkj
        rw [if_pos rfl, (renInv_old_mem ps O N _ k hOjj hjP).symm]
      · rw [if_neg hkj]
        by_cases hkm : k = movedKey O N j
        · subst hkm
          rw [if_pos rfl,
            renInv_moved ps O N _ _ (fun hc => hOm hc.1) hNm hm (by rw [hsrcm]; exact hjP),
            hsrcm, hjv]
        · rw [if_neg hkm, hnext, renInv_extend]
          · rintro ⟨_, hc⟩
            exact hkj hc
          · rintro ⟨hNk, hlk, hsrc⟩
            exact hkm (hsrc_eq k hNk hsrc)
    · rw [if_pos (by rw [hlm]; exact Option.isSome_iff_ne_none.mpr hm), jsLookup_jsDelete]
      by_cases hkj : k = j
      · subst hkj
        rw [if_pos rfl, (renInv_old_mem ps O N _ k hOjj hjP).symm]
      · rw [if_neg hkj, hnext, renInv_extend]
        · rintro ⟨_, hc⟩
          exact hkj hc
        · rintro ⟨hNk, hlk, hsrc⟩
          rw [hsrc_eq k hNk hsrc] at hlk
          exact hm hlk
  · have hstep : renameFolderStep O N next (j, v) = next := by
      unfold renameFolderStep
      rw [if_neg (by simpa [List.isPrefixOf_iff_prefix] using hOj)]
    rw [hstep, hnext, renInv_extend]
    · rintro ⟨ho, he⟩
      exact hOj (he ▸ ho)
    · rintro ⟨_, _, hsrc⟩
      exact hOj (hsrc ▸ (⟨_, rfl⟩ : O <+: O ++ k.drop N.length))

theorem dropWhile47_head_ne (l : Str) : (l.dropWhile (· = 47)).head? ≠ some 47 := by
  induction l with
  | nil => simp
  | cons c rest ih =>
    rw [List.dropWhile_cons]
    by_cases hc : c = 47
    · rw [if_pos (by simp [hc])]
      exact ih
    · rw [if_neg (by simp [hc])]
      simp [hc]

theorem normalizePath_getLast_ne (p : Str) : (normalizePath p).getLast? ≠ some 47 := by
  unfold normalizePath
  rw [List.getLast?_reverse]
  exact dropWhile47_head_ne _

theorem renameFold_inv (ps : ProgressMap) (O N : Str)
    (hON : ¬ O <+: N) (hNO : ¬ N <+: O) (hnd : (ps.map Prod.fst).Nodup) :
    ∀ (post pre next : ProgressMap),
      ps = pre ++ post →
      (∀ k, jsLookup next k = renInv ps O N (pre.map Prod.fst) k) →
      ∀ k, jsLookup (post.foldl (renameFolderStep O N) next) k
        = renInv ps O N ((pre ++ post).map Prod.fst) k := by
  intro post
  induction post with
  | nil =>
    intro pre next hps hnext k
    rw [List.foldl_nil, hnext, List.append_nil]
  | cons jv post2 ih =>
    obtain ⟨j, v⟩ := jv
    intro pre next hps hnext k
    rw [List.foldl_cons]
    have hps2 : ps = (pre ++ [(j, v)]) ++ post2 := by
      rw [hps]
      simp
    have hnext2 : ∀ k2, jsLookup (renameFolderStep O N next (j, v)) k2
        = renInv ps O N ((pre ++ [(j, v)]).map Prod.fst) k2 := by
      intro k2
      rw [renameFold_step_inv ps O N hON hNO pre post2 j v hps hnd next hnext k2,
        show (pre ++ [(j, v)]).map Prod.fst = pre.map Prod.fst ++ [j] by simp]
    rw [ih (pre ++ [(j, v)]) _ hps2 hnext2 k,
      show ((pre ++ [(j, v)]) ++ post2).map Prod.fst = (pre ++ (j, v) :: post2).map Prod.fst
        by simp]

theorem renInv_full_eq_spec (ps : ProgressMap) (O N : Str)
    (hcomp : ∀ l, O <+: l → N <+: l → False) (k : Str) :
    renInv ps O N (ps.map Prod.fst) k = renameFolderSpec ps O N k := by
  unfold renameFolderSpec
  by_cases hO : O <+: k
  · rw [if_pos hO]
    by_cases hk : k ∈ ps.map Prod.fst
    · exact renInv_old_mem _ _ _ _ _ hO hk
    · have hlk : jsLookup ps k = none :=
        Option.not_isSome_iff_eq_none.mp (fun hs => hk ((jsLookup_isSome_iff ps k).mp hs))
      rw [renInv_other _ _ _ _ _ (fun hc => hk hc.2) (fun hc => hcomp k hO hc.1), hlk]
  · rw [if_neg hO]
    by_cases hN : N <+: k
    · rw [if_pos hN]
      rcases hlk : jsLookup ps k with _ | w
      · by_cases hs : (O ++ k.drop N.length) ∈ ps.map Prod.fst
        · rw [renInv_moved _ _ _ _ _ (fun hc => hO hc.1) hN hlk hs]
        · rw [renInv_other _ _ _ _ _ (fun hc => hO hc.1) (fun hc => hs hc.2.2), hlk,
            Option.not_isSome_iff_eq_none.mp
              (fun hs2 => hs ((jsLookup_isSome_iff _ _).mp hs2))]
      · rw [renInv_other _ _ _ _ _ (fun hc => hO hc.1)
          (fun hc => by rw [hlk] at hc; exact Option.noConfusion hc.2.1), hlk]
    · rw [if_neg hN, renInv_other _ _ _ _ _ (fun hc => hO hc.1) (fun hc => hN hc.1)]

/-- Claim C4, amended: for nonempty normalised paths whose slash-terminated
prefixes are not nested inside one another, `renameProgress(old, new, true)`
re-keys every entry under `old/` to `new/`, leaves no entry under `old/`,
keeps a pre-existing destination entry on collision (dropping the source), and
leaves all other entries unchanged — stated as a complete characterisation of
every lookup in the resulting map. -/
theorem claim_C4 (ps : ProgressMap) (oldPath newPath : Str)
    (h1 : normalizePath oldPath = oldPath) (h2 : normalizePath newPath = newPath)
    (h3 : oldPath ≠ []) (h4 : newPath ≠ [])
    (h5 : ¬ (oldPath ++ [47]) <+: (newPath ++ [47]))
    (h6 : ¬ (newPath ++ [47]) <+: (oldPath ++ [47]))
    (h7 : (ps.map Prod.fst).Nodup) :
    ∀ k, jsLookup (ReadingStore.renameProgress ps oldPath newPath true) k
      = renameFolderSpec ps (oldPath ++ [47]) (newPath ++ [47]) k := by
  have hw1 : withSlash (normalizeProgressKey oldPath) = oldPath ++ [47] := by
    unfold normalizeProgressKey withSlash
    rw [h1, if_neg (h1 ▸ normalizePath_getLast_ne oldPath)]
  have hw2 : withSlash (normalizeProgressKey newPath) = newPath ++ [47] := by
    unfold normalizeProgressKey withSlash
    rw [h2, if_neg (h2 ▸ normalizePath_getLast_ne newPath)]
  have hguard : ¬ (normalizeProgressKey oldPath = [] ∨ normalizeProgressKey newPath = []) := by
    unfold normalizeProgressKey
    rw [h1, h2]
    rintro (h | h)
    · exact h3 h
    · exact h4 h
  intro k
  unfold ReadingStore.renameProgress
  rw [if_neg hguard, if_pos rfl, hw1, hw2]
  have hinit : ∀ k2, jsLookup ps k2
      = renInv ps (oldPath ++ [47]) (newPath ++ [47]) (([] : ProgressMap).map Prod.fst) k2 := by
    intro k2
    rw [show (([] : ProgressMap).map Prod.fst) = ([] : List Str) from rfl,
      renInv_other _ _ _ _ _ (fun hc => List.not_mem_nil _ hc.2)
        (fun hc => List.not_mem_nil _ hc.2.2)]
  rw [renameFold_inv ps (oldPath ++ [47]) (newPath ++ [47]) h5 h6 h7 ps [] ps (by simp)
    hinit k]
  rw [show (([] : ProgressMap) ++ ps).map Prod.fst = ps.map Prod.fst by simp]
  exact renInv_full_eq_spec ps _ _
    (fun l hOl hNl => (List.prefix_or_prefix_of_prefix hOl hNl).elim h5 h6) k

/-- Counterexample to claim C4 as stated: renaming folder `A` to itself deletes
the entry under `A/` entirely — the moved key equals the source key, so the
collision branch keeps it in the copy but the unconditional delete then removes
it, leaving neither a re-keyed entry nor the "kept" destination entry. -/
theorem claim_C4_counterexample :
    jsLookup
        (ReadingStore.renameProgress [(str "A/x", ⟨.numv 1, 2, some 0, some 0, none, none⟩)]
          (str "A") (str "A") true)
        (str "A/x")
      = none
    ∧ ReadingStore.renameProgress [(str "A/x", ⟨.numv 1, 2, some 0, some 0, none, none⟩)]
        (str "A") (str "A") true = [] := by decide

/-- Witness for the amended C4: renaming `Folder` to `Moved` re-keys
`Folder/Sub/B.epub` to `Moved/Sub/B.epub`, leaves nothing at `Folder/A.epub`,
keeps the pre-existing `Moved/A.epub` entry over the moved `Folder/A.epub`,
and leaves `Other/C.epub` untouched. -/
theorem claim_C4_witness :
    jsLookup
        (ReadingStore.renameProgress
          [(str "Folder/A.epub", ⟨.numv 1, 1, some 0, some 0, none, none⟩),
            (str "Folder/Sub/B.epub", ⟨.numv 2, 2, some 0, some 0, none, none⟩),
            (str "Other/C.epub", ⟨.numv 3, 3, some 0, some 0, none, none⟩),
            (str "Moved/A.epub", ⟨.numv 4, 4, some 0, some 0, none, none⟩)]
          (str "Folder") (str "Moved") true)
        (str "Moved/Sub/B.epub")
      = some ⟨.numv 2, 2, some 0, some 0, none, none⟩
    ∧ jsLookup
        (ReadingStore.renameProgress
          [(str "Folder/A.epub", ⟨.numv 1, 1, some 0, some 0, none, none⟩),
            (str "Folder/Sub/B.epub", ⟨.numv 2, 2, some 0, some 0, none, none⟩),
            (str "Other/C.epub", ⟨.numv 3, 3, some 0, some 0, none, none⟩),
            (str "Moved/A.epub", ⟨.numv 4, 4, some 0, some 0, none, none⟩)]
          (str "Folder") (str "Moved") true)
        (str "Folder/A.epub")
      = none
    ∧ jsLookup
        (ReadingStore.renameProgress
          [(str "Folder/A.epub", ⟨.numv 1, 1, some 0, some 0, none, none⟩),
            (str "Folder/Sub/B.epub", ⟨.numv 2, 2, some 0, some 0, none, none⟩),
            (str "Other/C.epub", ⟨.numv 3, 3, some 0, some 0, none, none⟩),
            (str "Moved/A.epub", ⟨.numv 4, 4, some 0, some 0, none, none⟩)]
          (str "Folder") (str "Moved") true)
        (str "Moved/A.epub")
      = some ⟨.numv 4, 4, some 0, some 0, none, none⟩ := by
  refine ⟨?_, ?_, ?_⟩ <;>
    rw [claim_C4 _ (str "Folder") (str "Moved") (by decide) (by decide) (by decide) (by decide)
      (by decide) (by decide) (by decide)] <;> decide

/-! ## Reading tracker (src/shared/models.ts, ReadingTracker) -/

/-- Tracker configuration (constructor defaults at src/shared/models.ts lines
27-32). -/
structure TrackerCfg where
  tickIntervalMs : Nat
  flushThresholdMs : Nat
  maxTickMs : Nat
  activityTimeoutMs : Nat
deriving DecidableEq

def defaultTrackerCfg : TrackerCfg := ⟨1000, 5000, 5000, 60000⟩

/-- Tracker state (fields of `ReadingTracker`, src/shared/models.ts lines
17-25).  Timestamps are `Date.now()` values in milliseconds; a zero
`lastTickAt`/`lastActivityAt` is the falsy initial value the code tests with
`!`. -/
structure TrackerSt where
  readTimerOn : Bool
  readTimePendingMs : Nat
  lastTickAt : Nat
  isActiveLeaf : Bool
  lastActivityAt : Nat
deriving DecidableEq

def initTracker : TrackerSt := ⟨false, 0, 0, false, 0⟩

/-- Embedding of `ReadingTracker.flush` (src/shared/models.ts lines 62-68);
`fp` is the value of `options.getFilePath()` and the second component is the
`onFlush` invocation, if any. -/
def trackerFlush (s : TrackerSt) (fp : Option Str) : TrackerSt × Option (Nat × Str) :=
  match fp with
  | none => (s, none)
  | some p =>
    if s.readTimePendingMs = 0 then (s, none)
    else ({ s with readTimePendingMs := 0 }, some (s.readTimePendingMs, p))

/-- Embedding of `ReadingTracker.tick` (src/shared/models.ts lines 70-89);
`now` is `Date.now()` at the tick.  Natural subtraction models the
`delta <= 0` and idle-timeout comparisons faithfully, since a clamped-to-zero
difference takes the same branch as a negative JavaScript number. -/
def trackerTick (cfg : TrackerCfg) (s : TrackerSt) (now : Nat) (fp : Option Str) :
    TrackerSt × Option (Nat × Str) :=
  match fp with
  | none => (s, none)
  | some _ =>
    let last := if s.lastTickAt = 0 then now else s.lastTickAt
    let s1 := { s with lastTickAt := now }
    if s1.isActiveLeaf = false then (s1, none)
    else if s1.lastActivityAt = 0 then (s1, none)
    else if cfg.activityTimeoutMs < now - s1.lastActivityAt then (s1, none)
    else if now - last = 0 then (s1, none)
    else
      let s2 := { s1 with
        readTimePendingMs := s1.readTimePendingMs + min (now - last) cfg.maxTickMs }
      if cfg.flushThresholdMs ≤ s2.readTimePendingMs then trackerFlush s2 fp
      else (s2, none)

/-- Embedding of `ReadingTracker.setActiveLeaf` (src/shared/models.ts lines
34-40). -/
def trackerSetActiveLeaf (s : TrackerSt) (b : Bool) (now : Nat) (fp : Option Str) :
    TrackerSt × Option (Nat × Str) :=
  if s.isActiveLeaf = b then (s, none)
  else
    let s1 := { s with isActiveLeaf := b, lastTickAt := now }
    if b then (s1, none) else trackerFlush s1 fp

/-- Embedding of `ReadingTracker.start` (src/shared/models.ts lines 42-46). -/
def trackerStart (s : TrackerSt) (now : Nat) : TrackerSt :=
  { s with lastTickAt := now, readTimerOn := true }

/-- Embedding of `ReadingTracker.stop` (src/shared/models.ts lines 48-56). -/
def trackerStop (s : TrackerSt) (fp : Option Str) : TrackerSt × Option (Nat × Str) :=
  match trackerFlush { s with readTimerOn := false } fp with
  | (s1, out) => ({ s1 with readTimePendingMs := 0, lastTickAt := 0 }, out)

/-- Embedding of `ReadingTracker.recordActivity` (src/shared/models.ts lines
58-60). -/
def trackerRecordActivity (s : TrackerSt) (now : Nat) : TrackerSt :=
  { s with lastActivityAt := now }

/-- An externally observable tracker event: each carries the `Date.now()`
and/or `getFilePath()` value observed during that call. -/
inductive TrackerEvent where
  | start (now : Nat)
  | stop (fp : Option Str)
  | setActiveLeaf (b : Bool) (now : Nat) (fp : Option Str)
  | recordActivity (now : Nat)
  | tick (now : Nat) (fp : Option Str)
  | flush (fp : Option Str)
deriving DecidableEq

def trackerStep (cfg : TrackerCfg) (s : TrackerSt) :
    TrackerEvent → TrackerSt × Option (Nat × Str)
  | .start now => (trackerStart s now, none)
  | .stop fp => trackerStop s fp
  | .setActiveLeaf b now fp => trackerSetActiveLeaf s b now fp
  | .recordActivity now => (trackerRecordActivity s now, none)
  | .tick now fp => trackerTick cfg s now fp
  | .flush fp => trackerFlush s fp

/-- Run a sequence of events, collecting every `onFlush` invocation. -/
def trackerRun (cfg : TrackerCfg) (s : TrackerSt) :
    List TrackerEvent → TrackerSt × List (Nat × Str)
  | [] => (s, [])
  | e :: es =>
    match trackerStep cfg s e with
    | (s1, out) =>
      match trackerRun cfg s1 es with
      | (s2, outs) => (s2, (out.toList) ++ outs)

def isRecordActivity : TrackerEvent → Bool
  | .recordActivity _ => true
  | _ => false

/-! ## Claim C8: idle suppression -/

theorem trackerStep_idle (cfg : TrackerCfg) (s : TrackerSt) (e : TrackerEvent)
    (ha : s.lastActivityAt = 0) (hp : s.readTimePendingMs = 0)
    (he : isRecordActivity e = false) :
    (trackerStep cfg s e).1.lastActivityAt = 0
    ∧ (trackerStep cfg s e).1.readTimePendingMs = 0
    ∧ (trackerStep cfg s e).2 = none := by
  cases e with
  | start now => exact ⟨ha, hp, rfl⟩
  | stop fp =>
    cases fp <;> simp [trackerStep, trackerStop, trackerFlush, ha, hp]
  | setActiveLeaf b now fp =>
    by_cases hb : s.isActiveLeaf = b
    · simp [trackerStep, trackerSetActiveLeaf, hb, ha, hp]
    · cases fp <;> cases b <;> simp [trackerStep, trackerSetActiveLeaf, hb, ha, hp, trackerFlush]
  | recordActivity now => simp [isRecordActivity] at he
  | tick now fp =>
    cases fp with
    | none => exact ⟨ha, hp, rfl⟩
    | some p =>
      by_cases hb : s.isActiveLeaf = false
      · simp [trackerStep, trackerTick, hb, ha, hp]
      · simp [trackerStep, trackerTick, hb, ha, hp]
  | flush fp =>
    cases fp <;> simp [trackerStep, trackerFlush, ha, hp]

theorem trackerRun_idle (cfg : TrackerCfg) :
    ∀ (es : List TrackerEvent) (s : TrackerSt),
      s.lastActivityAt = 0 → s.readTimePendingMs = 0 →
      (∀ e ∈ es, isRecordActivity e = false) →
      (trackerRun cfg s es).1.readTimePendingMs = 0 ∧ (trackerRun cfg s es).2 = [] := by
  intro es
  induction es with
  | nil =>
    intro s ha hp _
    exact ⟨hp, rfl⟩
  | cons e rest ih =>
    intro s ha hp hes
    obtain ⟨ha1, hp1, hout⟩ := trackerStep_idle cfg s e ha hp (hes e (by simp))
    have hrest := ih (trackerStep cfg s e).1 ha1 hp1 (fun x hx => hes x (by simp [hx]))
    simp only [trackerRun]
    rw [show trackerStep cfg s e = ((trackerStep cfg s e).1, (trackerStep cfg s e).2) from rfl,
      hout]
    rcases hr : trackerRun cfg (trackerStep cfg s e).1 rest with ⟨s2, outs⟩
    rw [hr] at hrest
    exact ⟨hrest.1, by simpa using hrest.2⟩

/-- Claim C8: starting from a fresh tracker, any sequence of events that never
includes `recordActivity` leaves `pendingMs` at zero and never invokes
`onFlush`, no matter how many ticks occur, how long they run, whether the leaf
is active, or whether a current file exists. -/
theorem claim_C8 (cfg : TrackerCfg) (es : List TrackerEvent)
    (h : ∀ e ∈ es, isRecordActivity e = false) :
    (trackerRun cfg initTracker es).1.readTimePendingMs = 0
    ∧ (trackerRun cfg initTracker es).2 = [] :=
  trackerRun_idle cfg es initTracker rfl rfl h

/-- Witness for C8: a concrete run with start, activation, many ticks with a
current file, and stop accrues nothing and never flushes. -/
theorem claim_C8_witness :
    (trackerRun defaultTrackerCfg initTracker
        [.start 0, .setActiveLeaf true 10 (some (str "b")), .tick 1000 (some (str "b")),
          .tick 2000 (some (str "b")), .tick 9000000 (some (str "b")), .stop (some (str "b"))]
      ).1.readTimePendingMs = 0
    ∧ (trackerRun defaultTrackerCfg initTracker
        [.start 0, .setActiveLeaf true 10 (some (str "b")), .tick 1000 (some (str "b")),
          .tick 2000 (some (str "b")), .tick 9000000 (some (str "b")), .stop (some (str "b"))]
      ).2 = [] :=
  claim_C8 defaultTrackerCfg _ (by decide)

/-! ## Claim C9: per-tick accrual cap -/

/-- Claim C9: one tick adds at most `maxTickMs` to the pending time, never the
full wall-clock gap — counting both what stays pending and what an induced
flush hands to `onFlush`. -/
theorem claim_C9 (cfg : TrackerCfg) (s : TrackerSt) (now : Nat) (fp : Option Str) :
    (trackerStep cfg s (.tick now fp)).1.readTimePendingMs
      + (match (trackerStep cfg s (.tick now fp)).2 with
          | none => 0
          | some (d, _) => d)
    ≤ s.readTimePendingMs + cfg.maxTickMs := by
  cases fp with
  | none => simp [trackerStep, trackerTick]
  | some p =>
    simp only [trackerStep, trackerTick, trackerFlush]
    repeat' split
    all_goals simp_all
    all_goals omega

/-! ## Claim C10: lastTickAt advancement -/

/-- Counterexample to claim C10 as stated: in the no-current-file skip case the
tick returns before touching `lastTickAt`, so the timestamp is not advanced to
`now`. -/
theorem claim_C10_counterexample :
    ((trackerStep defaultTrackerCfg ⟨true, 0, 100, true, 50⟩ (.tick 200 none)).1.lastTickAt
        ≠ 200)
    ∧ (trackerStep defaultTrackerCfg ⟨true, 0, 100, true, 50⟩ (.tick 200 none)).1
        = ⟨true, 0, 100, true, 50⟩ := by decide

/-- Claim C10, amended: a tick with no current file returns with the whole
state (including `lastTickAt`) unchanged; in every other case — leaf inactive,
no activity recorded, idle timeout exceeded, or normal accrual —
`lastTickAt` is advanced to `now`. -/
theorem claim_C10 (cfg : TrackerCfg) (s : TrackerSt) (now : Nat) (fp : Option Str) :
    (fp = none → trackerStep cfg s (.tick now fp) = (s, none))
    ∧ (fp ≠ none → (trackerStep cfg s (.tick now fp)).1.lastTickAt = now) := by
  constructor
  · rintro rfl
    rfl
  · intro hfp
    rcases fp with _ | p
    · exact absurd rfl hfp
    · simp only [trackerStep, trackerTick, trackerFlush]
      repeat' split
      all_goals simp_all

/-- Witness for the amended C10: at a concrete state, a no-file tick leaves the
state unchanged while a with-file tick advances `lastTickAt`. -/
theorem claim_C10_witness :
    trackerStep defaultTrackerCfg ⟨true, 0, 100, true, 50⟩ (.tick 200 none)
        = (⟨true, 0, 100, true, 50⟩, none)
    ∧ (trackerStep defaultTrackerCfg ⟨true, 0, 100, true, 50⟩
          (.tick 200 (some (str "b")))).1.lastTickAt = 200 :=
  ⟨(claim_C10 defaultTrackerCfg _ 200 none).1 rfl,
    (claim_C10 defaultTrackerCfg _ 200 (some (str "b"))).2 (by simp)⟩

/-! ## BacklinkManager (models.ts cached version, lines 448-502)

Obsidian objects are modeled by explicit data: the vault's files, the
metadata cache's per-file link/embed items, the resolvedLinks map and the
getFirstLinkpathDest resolution table are fields of AppModel. All vault
entries are TFiles, so getAbstractFileByPath succeeds exactly when the path
is present. -/

structure EpubTFile where
  path : Str
  basename : Str
  mtime : Nat
deriving DecidableEq

/-- One entry of getFileCache(file).links or .embeds: the code reads
item.link (coerced to a string, so modeled total), item.original,
item.subpath and item.displayText (possibly undefined, so Option). -/
structure LinkCacheItem where
  link : Str
  original : Option Str
  subpath : Option Str
  displayText : Option Str
deriving DecidableEq

structure FileCache where
  links : Option (List LinkCacheItem)
  embeds : Option (List LinkCacheItem)
deriving DecidableEq

structure AppModel where
  backlinkKeys : Option (List Str)
  resolvedLinks : List (Str × List Str)
  files : List EpubTFile
  fileCaches : List (Str × FileCache)
  linkDests : List ((Str × Str) × Str)
deriving DecidableEq

structure BacklinkHighlight where
  cfiRange : Str
  sourceFile : EpubTFile
  display : Str
deriving DecidableEq

structure BacklinkCache where
  lastBookPath : Option Str
  lastCacheKey : Option Str
  cachedResults : List BacklinkHighlight
deriving DecidableEq

def vaultGetFile : List EpubTFile → Str → Option EpubTFile
  | [], _ => none
  | f :: fs, p => if f.path = p then some f else vaultGetFile fs p

def alistFind {α : Type} : List (Str × α) → Str → Option α
  | [], _ => none
  | (k, v) :: rest, q => if k = q then some v else alistFind rest q

def lookupDest : List ((Str × Str) × Str) → Str → Str → Option Str
  | [], _, _ => none
  | ((lp, sp), d) :: rest, lq, sq =>
      if lp = lq ∧ sp = sq then some d else lookupDest rest lq sq

/-- All matches of the sticky regex loop for /#cfi64=([A-Za-z0-9_-]+)/g in
order. The literal has no self-overlap and tokens contain no '#', so after a
match the scan resumes right after the token, and after a failed attempt (no
alphabet character follows the '=') right after the literal. Fuel bounds the
recursion; one character is consumed per step so s.length suffices. -/
def scanCfiTokens : Nat → Str → List Str
  | 0, _ => []
  | _ + 1, [] => []
  | fuel + 1, 35 :: 99 :: 102 :: 105 :: 54 :: 52 :: 61 :: r7 =>
      match r7.takeWhile isB64uChar with
      | [] => scanCfiTokens fuel r7
      | t => t :: scanCfiTokens fuel (r7.drop t.length)
  | fuel + 1, _ :: rest => scanCfiTokens fuel rest

/-- raw.indexOf("#cfi64=") !== -1. -/
def containsCfi : Str → Bool
  | 35 :: 99 :: 102 :: 105 :: 54 :: 52 :: 61 :: _ => true
  | _ :: rest => containsCfi rest
  | [] => false

/-- First capture of original.match(/\x5b\x5b([^|\x5d]+)/): after a "[[" the
maximal nonempty run of characters other than '|' and the closing bracket.
When the run is empty no match starts at this position or inside the
brackets, so the scan continues after them. -/
def wikiTarget : Str → Option Str
  | 91 :: 91 :: rest =>
      match rest.takeWhile (fun c => !(c == 124 || c == 93)) with
      | [] => wikiTarget rest
      | t => some t
  | _ :: rest => wikiTarget rest
  | [] => none

def natDigitsGo : Nat → Nat → Str
  | 0, _ => []
  | fuel + 1, n => if n < 10 then [48 + n] else natDigitsGo fuel (n / 10) ++ [48 + n % 10]

/-- Decimal rendering of a Nat, as JS template interpolation does. -/
def natToStr (n : Nat) : Str := natDigitsGo (n + 1) n

/-- JS default sort comparison on strings: lexicographic by code unit. -/
def strLtB : Str → Str → Bool
  | [], [] => false
  | [], _ :: _ => true
  | _ :: _, [] => false
  | a :: as, b :: bs => if a < b then true else if b < a then false else strLtB as bs

def insOrd (x : Str) : List Str → List Str
  | [] => [x]
  | y :: ys => if strLtB y x then y :: insOrd x ys else x :: y :: ys

def sortStrs (l : List Str) : List Str := l.foldr insOrd []

def joinBar : List Str → Str
  | [] => []
  | [x] => x
  | x :: y :: rest => x ++ [124] ++ joinBar (y :: rest)

/-- buildCacheKey: candidate "path:mtime" parts, sorted, joined with '|',
prefixed by the book path and the candidate count with "::" separators. -/
def BacklinkManager.buildCacheKey (bookPath : Str) (candidates : List EpubTFile) : Str :=
  bookPath ++ [58, 58] ++ natToStr candidates.length ++ [58, 58]
    ++ joinBar (sortStrs (candidates.map (fun f => f.path ++ [58] ++ natToStr f.mtime)))

/-- Mutable loop state of getHighlightsForBook: the global seenEncoded set,
the accumulated results, and whether the limit early-return has fired. -/
structure ScanSt where
  seen : List Str
  results : List BacklinkHighlight
  stopped : Bool

/-- The inner while loop over regex matches of one raw string, with the
global dedup set and the limit check after each push. -/
def processTokens (limit : Nat) (sf : EpubTFile) (display : Str) : ScanSt → List Str → ScanSt
  | st, [] => st
  | st, t :: ts =>
      if st.stopped then st
      else if st.seen.contains t then processTokens limit sf display st ts
      else
        let st1 : ScanSt := ⟨t :: st.seen, st.results, st.stopped⟩
        match base64UrlDecode t with
        | none => processTokens limit sf display st1 ts
        | some cfi =>
            let res := st1.results ++ [⟨cfi, sf, display⟩]
            if limit ≤ res.length then ⟨st1.seen, res, true⟩
            else processTokens limit sf display ⟨st1.seen, res, st1.stopped⟩ ts

/-- candidateStrings = [original, linkRaw, subpath].filter(Boolean): drop the
undefined fields and the empty strings. -/
def candStrings (item : LinkCacheItem) : List Str :=
  ([item.original, some item.link, item.subpath].filterMap id).filter (fun s => !s.isEmpty)

/-- One iteration of the per-item loop: resolve the link target, skip items
that do not resolve to the book or carry no "#cfi64=" marker, then feed every
candidate string's tokens to the dedup loop. -/
def processItem (app : AppModel) (limit : Nat) (bookPath : Str) (sf : EpubTFile)
    (st : ScanSt) (item : LinkCacheItem) : ScanSt :=
  if st.stopped then st else
  let linkPath := (breakAt 35 item.link).1
  let resolvedPath :=
    if linkPath.isEmpty then
      match wikiTarget (item.original.getD []) with
      | some w => (breakAt 35 w).1
      | none => linkPath
    else linkPath
  match lookupDest app.linkDests resolvedPath sf.path with
  | none => st
  | some destPath =>
      if destPath = bookPath then
        let cs := candStrings item
        if cs.any containsCfi then
          processTokens limit sf ((item.displayText).getD sf.basename) st
            ((cs.map (fun raw => scanCfiTokens raw.length raw)).flatten)
        else st
      else st

/-- One iteration of the per-candidate loop: fetch the file cache and walk
links then embeds. -/
def processFile (app : AppModel) (limit : Nat) (bookPath : Str)
    (st : ScanSt) (sf : EpubTFile) : ScanSt :=
  if st.stopped then st else
  match alistFind app.fileCaches sf.path with
  | none => st
  | some fc => (fc.links.getD [] ++ fc.embeds.getD []).foldl (processItem app limit bookPath sf) st

/-- getHighlightsForBook: coarse candidates from the backlinks API keys, else
from resolvedLinks entries owning the book path; cache hit returns the stored
results; otherwise the scan runs with a fresh seenEncoded set and the cache
is updated with the results, also on the limit early return (the stopped
flag makes later iterations no-ops, matching the return). -/
def BacklinkManager.getHighlightsForBook (app : AppModel) (cache : BacklinkCache)
    (bookFile : EpubTFile) (limit : Nat) : List BacklinkHighlight × BacklinkCache :=
  let bookPath := bookFile.path
  let cand1 := (app.backlinkKeys.getD []).filterMap (vaultGetFile app.files)
  let candidates :=
    if cand1.isEmpty then
      ((app.resolvedLinks.filter (fun e => e.2.contains bookPath)).map Prod.fst).filterMap
        (vaultGetFile app.files)
    else cand1
  let cacheKey := BacklinkManager.buildCacheKey bookPath candidates
  if cache.lastBookPath = some bookPath ∧ cache.lastCacheKey = some cacheKey then
    (cache.cachedResults, cache)
  else
    let st := candidates.foldl (processFile app limit bookPath) ⟨[], [], false⟩
    (st.results, ⟨some bookPath, some cacheKey, st.results⟩)

/-! ## Claim C7: resolver dedup -/

def bkBook : EpubTFile := ⟨str "book.epub", str "book", 5⟩

def bkNote1 : EpubTFile := ⟨str "n1.md", str "n1", 10⟩

def bkNote2 : EpubTFile := ⟨str "n2.md", str "n2", 20⟩

def freshBkCache : BacklinkCache := ⟨none, none, []⟩

/-- Two distinct notes, each holding a link to the book with the same encoded
token QUJD (which decodes to "ABC"). -/
def cexApp7 : AppModel :=
  { backlinkKeys := some [str "n1.md", str "n2.md"]
    resolvedLinks := []
    files := [bkBook, bkNote1, bkNote2]
    fileCaches :=
      [(str "n1.md", ⟨some [⟨str "book.epub#cfi64=QUJD", none, none, none⟩], none⟩),
       (str "n2.md", ⟨some [⟨str "book.epub#cfi64=QUJD", none, none, none⟩], none⟩)]
    linkDests := [((str "book.epub", str "n1.md"), str "book.epub"),
                  ((str "book.epub", str "n2.md"), str "book.epub")] }

/-- Note 1 holds token QQ twice (in the raw link and in its [[...]] original);
note 2 holds the different token QR. QQ and QR both decode to "A" because the
two spare bits of the second sextet are discarded. -/
def app7 : AppModel :=
  { backlinkKeys := some [str "n1.md", str "n2.md"]
    resolvedLinks := []
    files := [bkBook, bkNote1, bkNote2]
    fileCaches :=
      [(str "n1.md",
         ⟨some [⟨str "book.epub#cfi64=QQ", some (str "[[book.epub#cfi64=QQ]]"), none, none⟩], none⟩),
       (str "n2.md", ⟨some [⟨str "book.epub#cfi64=QR", none, none, none⟩], none⟩)]
    linkDests := [((str "book.epub", str "n1.md"), str "book.epub"),
                  ((str "book.epub", str "n2.md"), str "book.epub")] }

/-- Counterexample to claim C7: two distinct source notes linking to the same
decoded location via the SAME encoded token produce one entry, not two — the
seenEncoded set is global across the pass, so the second note's token is
dropped and its note contributes no entry. -/
theorem claim_C7_counterexample :
    bkNote1 ≠ bkNote2
    ∧ (BacklinkManager.getHighlightsForBook cexApp7 freshBkCache bkBook 200).1
        = [⟨str "ABC", bkNote1, str "n1"⟩] := by decide

/-- Claim C7, amended: dedup is by encoded token, globally across the pass.
Two distinct notes produce two entries for the same decoded location only
when their tokens differ as strings: here the distinct tokens QQ and QR both
decode to "A", giving two entries with equal cfiRange and distinct
sourceFile, while the token duplicated inside note 1 yields a single entry. -/
theorem claim_C7 :
    (BacklinkManager.getHighlightsForBook app7 freshBkCache bkBook 200).1
        = [⟨str "A", bkNote1, str "n1"⟩, ⟨str "A", bkNote2, str "n2"⟩]
    ∧ base64UrlDecode (str "QQ") = some (str "A")
    ∧ base64UrlDecode (str "QR") = some (str "A")
    ∧ str "QQ" ≠ str "QR"
    ∧ bkNote1 ≠ bkNote2 := by decide
